import Mathlib

/-!
# GlowCart: session/cart store and catalog service

A shallow embedding of `src/context/AppContext.js` (the reducer `appReducer`, the
provider's action functions and the two derived queries `getCartTotal` and
`getCartItemsCount`), of the functions of `src/services/api.js` (`isBeautyProduct`,
`getBeautyProducts`, `searchProducts`, `getProduct`, `getCategories`, the mock `login`
and `register`) and of the loop of `handleAddToBag` in `ProductDetailScreen.js`.

Modelling conventions.
* JavaScript numbers: product ids and quantities are `Int`; prices, discounts and
  ratings are the decimal values of the records, as rationals `ℚ`. `getCartTotal` adds and
  multiplies them exactly; `getCartTotalBinary64` is the same reduce with every literal
  and every operation rounded to binary64, as the engine computes it.
* A product record is `Product`; besides the catalog fields it may carry a
  `quantity` property of its own, which the spread in `ADD_TO_CART` overrides.
* A cart line is the flat object `{...product, quantity}`, here `CartLine`.
* `AsyncStorage` is the single slot `userData`; whether a storage call succeeds is
  chosen by the environment and passed to the action as a `Bool`.
-/

namespace GlowCart

/-- The catalog fields shared by product records and cart lines. -/
structure ProductFields where
  id : Int
  title : String
  description : String
  brand : Option String
  category : String
  price : ℚ
  discountPercentage : Option ℚ
  rating : Option ℚ
  stock : Int
  thumbnail : String
  images : List String
  deriving DecidableEq

/-- A product record as handed to `addToCart`; `quantity` is present only when the
object happens to carry such a property. -/
structure Product extends ProductFields where
  quantity : Option Int
  deriving DecidableEq

/-- One element of `state.cart`: the product's fields and a numeric `quantity`. -/
structure CartLine extends ProductFields where
  quantity : Int
  deriving DecidableEq

/-- The user record produced by the login and register flows. -/
structure User where
  id : Int
  firstName : String
  lastName : String
  email : String
  username : String
  image : String
  token : String
  deriving DecidableEq

/-- The store state, `initialState` in the source gives its shape. -/
structure AppState where
  user : Option User
  isAuthenticated : Bool
  products : List Product
  cart : List CartLine
  loading : Bool
  error : Option String
  deriving DecidableEq

/-- The constant `initialState`. -/
def initialState : AppState :=
  { user := none
    isAuthenticated := false
    products := []
    cart := []
    loading := false
    error := none }

/-- The actions `appReducer` switches on; `UNKNOWN` stands for any other `type`. -/
inductive Action where
  | SET_LOADING (payload : Bool)
  | SET_ERROR (payload : Option String)
  | SET_USER (payload : Option User)
  | SET_PRODUCTS (payload : List Product)
  | ADD_TO_CART (payload : Product)
  | REMOVE_FROM_CART (payload : Int)
  | UPDATE_CART_QUANTITY (id : Int) (quantity : Int)
  | CLEAR_CART
  | LOGOUT
  | UNKNOWN

/-- The object `{...action.payload, quantity: 1}` built by `ADD_TO_CART`, for a general
quantity `q`. -/
def lineOf (payload : Product) (q : Int) : CartLine :=
  { payload.toProductFields with quantity := q }

/-- The function `appReducer(state, action)`. -/
def appReducer (state : AppState) : Action → AppState
  | .SET_LOADING payload => { state with loading := payload }
  | .SET_ERROR payload => { state with error := payload, loading := false }
  | .SET_USER payload =>
      { state with user := payload, isAuthenticated := payload.isSome }
  | .SET_PRODUCTS payload => { state with products := payload, loading := false }
  | .ADD_TO_CART payload =>
      match state.cart.find? (fun item => item.id == payload.id) with
      | some _ =>
          { state with
            cart := state.cart.map (fun item =>
              if item.id = payload.id then { item with quantity := item.quantity + 1 }
              else item) }
      | none => { state with cart := state.cart ++ [lineOf payload 1] }
  | .REMOVE_FROM_CART payload =>
      { state with cart := state.cart.filter (fun item => item.id != payload) }
  | .UPDATE_CART_QUANTITY id quantity =>
      { state with
        cart := state.cart.map (fun item =>
          if item.id = id then { item with quantity := quantity } else item) }
  | .CLEAR_CART => { state with cart := [] }
  | .LOGOUT => { initialState with products := state.products }
  | .UNKNOWN => state

/-- What the `userData` slot of the durable storage holds: the JSON text of a value
passed to `login` (kept as that value), or text that `JSON.parse` rejects. -/
inductive StoredText where
  | json (value : Option User)
  | garbage (raw : String)
  deriving DecidableEq

/-- The provider: the reducer state together with the durable `userData` slot. -/
structure Store where
  state : AppState
  userData : Option StoredText
  deriving DecidableEq

/-- The provider right after `useReducer(appReducer, initialState)`, over a storage
slot left by an earlier run. -/
def initialStore (slot : Option StoredText) : Store :=
  { state := initialState, userData := slot }

/-- The hook `dispatch(action)`. -/
def dispatch (action : Action) (s : Store) : Store :=
  { s with state := appReducer s.state action }

/-- The effect `loadUserData`, run on start; `readOk = false` is a rejected
`AsyncStorage.getItem`. Every failure is caught and logged. -/
def loadUserData (readOk : Bool) (s : Store) : Store :=
  if readOk then
    match s.userData with
    | some (.json value) => dispatch (.SET_USER value) s
    | some (.garbage _) => s
    | none => s
  else s

/-- The action `setLoading(loading)`. -/
def setLoading (loading : Bool) (s : Store) : Store :=
  dispatch (.SET_LOADING loading) s

/-- The action `setError(error)`. -/
def setError (error : Option String) (s : Store) : Store :=
  dispatch (.SET_ERROR error) s

/-- The action `login(userData)`; `writeOk = false` is a rejected
`AsyncStorage.setItem`, which is rethrown to the caller. -/
def login (writeOk : Bool) (userData : Option User) (s : Store) : Except String Store :=
  if writeOk then
    .ok (dispatch (.SET_USER userData) { s with userData := some (.json userData) })
  else .error "Error saving user data"

/-- The action `logout()`; `removeOk = false` is a rejected `AsyncStorage.removeItem`:
control jumps to the `catch`, which only logs, so `dispatch` is not reached. The
function never throws. -/
def logout (removeOk : Bool) (s : Store) : Store :=
  if removeOk then dispatch .LOGOUT { s with userData := none } else s

/-- The action `setProducts(products)`. -/
def setProducts (products : List Product) (s : Store) : Store :=
  dispatch (.SET_PRODUCTS products) s

/-- The action `addToCart(product)`. -/
def addToCart (product : Product) (s : Store) : Store :=
  dispatch (.ADD_TO_CART product) s

/-- The action `removeFromCart(productId)`. -/
def removeFromCart (productId : Int) (s : Store) : Store :=
  dispatch (.REMOVE_FROM_CART productId) s

/-- The action `updateCartQuantity(productId, quantity)`. -/
def updateCartQuantity (productId : Int) (quantity : Int) (s : Store) : Store :=
  if quantity ≤ 0 then removeFromCart productId s
  else dispatch (.UPDATE_CART_QUANTITY productId quantity) s

/-- The action `clearCart()`. -/
def clearCart (s : Store) : Store :=
  dispatch .CLEAR_CART s

/-- The query `getCartTotal()`, with the sum and the products taken exactly; the
engine's rounded computation is `getCartTotalBinary64`. -/
def getCartTotal (s : Store) : ℚ :=
  s.state.cart.foldl (fun total item => total + item.price * item.quantity) 0

/-- The query `getCartItemsCount()`. -/
def getCartItemsCount (s : Store) : Int :=
  s.state.cart.foldl (fun total item => total + item.quantity) 0

/-- One call made by the presentation layer, with the outcome of the storage
operation it performs, if any. -/
inductive Call where
  | loadUserData (readOk : Bool)
  | setLoading (loading : Bool)
  | setError (error : Option String)
  | login (writeOk : Bool) (userData : Option User)
  | logout (removeOk : Bool)
  | setProducts (products : List Product)
  | addToCart (product : Product)
  | removeFromCart (productId : Int)
  | updateCartQuantity (productId : Int) (quantity : Int)
  | clearCart

/-- The store after a call; a `login` that throws leaves the store as it was. -/
def Call.run (s : Store) : Call → Store
  | .loadUserData readOk => GlowCart.loadUserData readOk s
  | .setLoading loading => GlowCart.setLoading loading s
  | .setError error => GlowCart.setError error s
  | .login writeOk userData =>
      match GlowCart.login writeOk userData s with
      | .ok s' => s'
      | .error _ => s
  | .logout removeOk => GlowCart.logout removeOk s
  | .setProducts products => GlowCart.setProducts products s
  | .addToCart product => GlowCart.addToCart product s
  | .removeFromCart productId => GlowCart.removeFromCart productId s
  | .updateCartQuantity productId quantity =>
      GlowCart.updateCartQuantity productId quantity s
  | .clearCart => GlowCart.clearCart s

/-- The store after a sequence of calls, oldest first. -/
def runCalls (calls : List Call) (s : Store) : Store :=
  calls.foldl Call.run s

/-- The cart invariant of the data model: no two lines share a product id. -/
def UniqueIds (cart : List CartLine) : Prop :=
  (cart.map (fun item => item.id)).Nodup

instance (cart : List CartLine) : Decidable (UniqueIds cart) :=
  inferInstanceAs (Decidable (List.Nodup (cart.map (fun item : CartLine => item.id))))

/-- A small product used in the concrete checks below. -/
def sampleProduct (id : Int) (price : ℚ) : Product :=
  { id := id, title := "Soft Cream", description := "A day cream", brand := none
    category := "skincare", price := price, discountPercentage := some 10
    rating := none, stock := 3, thumbnail := "t.png", images := [], quantity := none }

/-- A signed-in user used in the concrete checks below. -/
def sampleUser : User :=
  { id := 1, firstName := "Beauty", lastName := "Lover", email := "a@b.c"
    username := "a", image := "i.png", token := "mock-jwt-token-0" }

/-- A store with a signed-in user and one cart line. -/
def sampleStore : Store :=
  { state :=
      { user := some sampleUser, isAuthenticated := true, products := [sampleProduct 7 5]
        cart := [lineOf (sampleProduct 7 5) 2], loading := false, error := none }
    userData := some (.json (some sampleUser)) }

/-- Two cart lines that agree on everything except, possibly, the discount. -/
def withoutDiscount (item : CartLine) : CartLine :=
  { item with discountPercentage := none }

/-- The store `s` with its cart replaced, nothing else touched. -/
def withCart (s : Store) (cart : List CartLine) : Store :=
  { s with state := { s.state with cart := cart } }

/-- The calls `addToCart(p)` for each product of a list in turn, first to last. -/
def addEach (products : List Product) (s : Store) : Store :=
  products.foldl (fun acc product => addToCart product acc) s

/-! ## Catalog service (`src/services/api.js`)

Strings are Lean strings, compared character by character. The Unicode case table behind
`String.prototype.toLowerCase` is not part of the repository: it is the parameter `lc`,
which gives the lower-case expansion of each character. The outcome of an upstream
request is an `Except`: the `products` array of the response body, or a failure. -/

/-- The method `s.toLowerCase()`, over the case table `lc`. -/
def toLowerCase (lc : Char → List Char) (s : String) : String :=
  ⟨s.data.flatMap lc⟩

/-- The method `s.includes(k)`: `k` occurs in `s` as a contiguous run of characters. -/
def includes (s k : String) : Bool :=
  s.data.tails.any (fun t => k.data.isPrefixOf t)

/-- The case table restricted to what every JavaScript engine does on ASCII: the letters
`A`-`Z` are lowered and every other ASCII character is left as it is. -/
def AsciiFaithful (lc : Char → List Char) : Prop :=
  ∀ c : Char, c.val < 128 → lc c = [c.toLower]

/-- The ASCII-only case table, used in the concrete checks. -/
def asciiLower (c : Char) : List Char :=
  [c.toLower]

/-- The constant `BEAUTY_KEYWORDS`. -/
def BEAUTY_KEYWORDS : List String :=
  ["mascara", "lipstick", "foundation", "concealer", "powder", "blush",
   "eyeshadow", "eyeliner", "perfume", "nail", "skincare", "cream",
   "serum", "moisturizer", "cleanser", "toner", "beauty", "makeup",
   "cosmetic", "essence", "primer", "highlighter", "contour", "bronzer"]

/-- The function `isBeautyProduct(product)`. -/
def isBeautyProduct (lc : Char → List Char) (product : Product) : Bool :=
  let searchText :=
    toLowerCase lc (product.title ++ " " ++ product.description ++ " " ++ product.category)
  BEAUTY_KEYWORDS.any (fun keyword => includes searchText keyword)

/-- The constant `mockBeautyProducts` of `getBeautyProducts`. -/
def mockBeautyProducts : List Product :=
  [ { id := 1001
      title := "Essence Mascara Lash Princess"
      description := "The Essence Mascara Lash Princess is a popular mascara known for its volumizing and lengthening effects. Achieve dramatic lashes with this long-lasting formula."
      price := 9.99
      discountPercentage := some 7.17
      rating := some 4.94
      stock := 5
      brand := some "Essence"
      category := "beauty"
      thumbnail := "https://cdn.dummyjson.com/products/images/beauty/Essence%20Mascara%20Lash%20Princess/thumbnail.png"
      images :=
        ["https://cdn.dummyjson.com/products/images/beauty/Essence%20Mascara%20Lash%20Princess/1.png",
         "https://cdn.dummyjson.com/products/images/beauty/Essence%20Mascara%20Lash%20Princess/2.png"]
      quantity := none },
    { id := 1002
      title := "Eyeshadow Palette with Mirror"
      description := "The Eyeshadow Palette with Mirror offers a versatile range of eyeshadow shades for creating stunning eye looks. With a built-in mirror, it's convenient for on-the-go makeup application."
      price := 19.99
      discountPercentage := some 5.5
      rating := some 4.6
      stock := 44
      brand := some "Glamour Beauty"
      category := "beauty"
      thumbnail := "https://cdn.dummyjson.com/products/images/beauty/Eyeshadow%20Palette%20with%20Mirror/thumbnail.png"
      images :=
        ["https://cdn.dummyjson.com/products/images/beauty/Eyeshadow%20Palette%20with%20Mirror/1.png",
         "https://cdn.dummyjson.com/products/images/beauty/Eyeshadow%20Palette%20with%20Mirror/2.png"]
      quantity := none },
    { id := 1003
      title := "Powder Canister"
      description := "The Powder Canister is a finely milled setting powder designed to set makeup and control shine. With a lightweight and translucent formula, it provides a smooth finish."
      price := 14.99
      discountPercentage := some 18.14
      rating := some 3.82
      stock := 59
      brand := some "Velvet Touch"
      category := "beauty"
      thumbnail := "https://cdn.dummyjson.com/products/images/beauty/Powder%20Canister/thumbnail.png"
      images :=
        ["https://cdn.dummyjson.com/products/images/beauty/Powder%20Canister/1.png",
         "https://cdn.dummyjson.com/products/images/beauty/Powder%20Canister/2.png"]
      quantity := none } ]

/-- The object a catalog call resolves to: `{products, total}`. -/
structure ProductList where
  products : List Product
  total : Nat
  deriving DecidableEq

/-- The relabelling applied to each product of the fallback branch of
`getBeautyProducts`. -/
def relabel (product : Product) : Product :=
  { product with
    title := if includes product.title "Essence" then product.title
      else "Beauty " ++ product.title
    category := "beauty"
    description := "Premium beauty product: " ++ product.description }

/-- The body of the `forEach` that merges into `combinedProducts`: a product is pushed
unless an entry with its id is already there. -/
def pushUnlessPresent (combinedProducts : List Product) (product : Product) : List Product :=
  match combinedProducts.find? (fun p => p.id == product.id) with
  | some _ => combinedProducts
  | none => combinedProducts ++ [product]

/-- The list `beautyProducts` of `getBeautyProducts` before the merge: the classified
products, or the relabelled first ten when none is classified. -/
def beautyOrFallback (lc : Char → List Char) (allProducts : List Product) : List Product :=
  let beautyProducts := allProducts.filter (isBeautyProduct lc)
  if beautyProducts.length = 0 then (allProducts.take 10).map relabel else beautyProducts

/-- The method `apiService.getBeautyProducts()`, as a function of the outcome of
`api.get('/products?limit=100')`. -/
def getBeautyProducts (lc : Char → List Char) :
    Except String (List Product) → Except String ProductList
  | .error _ => .error "Failed to fetch products. Please try again."
  | .ok allProducts =>
      let combinedProducts :=
        (beautyOrFallback lc allProducts).foldl pushUnlessPresent mockBeautyProducts
      .ok { products := combinedProducts, total := combinedProducts.length }

/-- The method `apiService.searchProducts(query)`, as a function of the outcome of the
search request. -/
def searchProducts (lc : Char → List Char) (query : String) :
    Except String (List Product) → Except String ProductList
  | .error _ => .error "Search failed. Please try again."
  | .ok searchResults =>
      let beautyKeywordInQuery :=
        BEAUTY_KEYWORDS.any (fun keyword => includes (toLowerCase lc query) keyword)
      if beautyKeywordInQuery then
        .ok { products := searchResults, total := searchResults.length }
      else
        let beautyResults := searchResults.filter (isBeautyProduct lc)
        .ok { products := beautyResults, total := beautyResults.length }

/-- A product of the generic feed used in the concrete checks of the catalog. -/
def feedProduct (id : Int) (title description category : String) : Product :=
  { id := id, title := title, description := description, brand := none
    category := category, price := 12, discountPercentage := none, rating := none
    stock := 4, thumbnail := "f.png", images := [], quantity := none }

/-- A feed product whose description mentions a serum and whose id is that of the first
seed product. -/
def serumClash : Product :=
  feedProduct 1001 "Night Oil" "a serum" "care"


/-! ## Passthrough calls and mock authentication (`src/services/api.js`)

The simulated latency (`setTimeout`) is not modelled. `Date.now()` is the parameter `now`.
An argument that may be missing (`undefined`) is an `Option String`. -/

/-- The method `apiService.getProduct(id)`, as a function of the outcome of the request;
`α` is the type of the response body. -/
def getProduct {α : Type} : Except String α → Except String α
  | .error _ => .error "Failed to fetch product details."
  | .ok data => .ok data

/-- The method `apiService.getCategories()`, as a function of the outcome of the
request. -/
def getCategories {α : Type} : Except String α → Except String α
  | .error _ => .error "Failed to fetch categories."
  | .ok data => .ok data

/-- The property `s.length`: the number of UTF-16 code units of the string. -/
def jsLength (s : String) : Nat :=
  (s.data.map (fun c => if c.toNat < 65536 then 1 else 2)).sum

/-- The truthiness of a string argument: it is present and not empty. -/
def truthy : Option String → Bool
  | some v => v != ""
  | none => false

/-- The characters `String.prototype.trim` strips: the WhiteSpace and LineTerminator
code points of ECMAScript. -/
def isWhiteSpace (c : Char) : Bool :=
  c.toNat ∈ [0x09, 0x0A, 0x0B, 0x0C, 0x0D, 0x20, 0xA0, 0x1680, 0x2000, 0x2001, 0x2002,
    0x2003, 0x2004, 0x2005, 0x2006, 0x2007, 0x2008, 0x2009, 0x200A, 0x2028, 0x2029,
    0x202F, 0x205F, 0x3000, 0xFEFF]

/-- The method `trim` on characters: white space is dropped at both ends. -/
def trimChars (l : List Char) : List Char :=
  ((l.dropWhile isWhiteSpace).reverse.dropWhile isWhiteSpace).reverse

/-- The method `s.trim()`. -/
def trim (s : String) : String :=
  ⟨trimChars s.data⟩

/-- The array `s.split(sep)` for a one-character separator, on characters; the array is
never empty and is given as its first element and the list of the others. -/
def splitChars (sep : Char) : List Char → List Char × List (List Char)
  | [] => ([], [])
  | c :: cs =>
      if c = sep then ([], (splitChars sep cs).1 :: (splitChars sep cs).2)
      else (c :: (splitChars sep cs).1, (splitChars sep cs).2)

/-- The array `s.split(sep)`, as its first element and the list of the others. -/
def split (s : String) (sep : Char) : String × List String :=
  (⟨(splitChars sep s.data).1⟩, (splitChars sep s.data).2.map (fun t => ⟨t⟩))

/-- The method `parts.join(sep)` on characters. -/
def joinChars (sep : Char) : List (List Char) → List Char
  | [] => []
  | [t] => t
  | t :: u :: ts => t ++ sep :: joinChars sep (u :: ts)

/-- The method `parts.join(sep)` for a one-character separator. -/
def join (parts : List String) (sep : Char) : String :=
  ⟨joinChars sep (parts.map (fun t => t.data))⟩

/-- The name split of `register`: `[firstName, ...lastNameParts] =
fullName.trim().split(' ')` and `lastName = lastNameParts.join(' ') || ''`. -/
def splitName (fullName : String) : String × String :=
  let parts := split (trim fullName) ' '
  let firstName := parts.1
  let lastNameParts := parts.2
  let lastName := if join lastNameParts ' ' = "" then "" else join lastNameParts ' '
  (firstName, lastName)

/-- The mock `apiService.login(email, password)`. -/
def apiService.login (now : Nat) (email password : Option String) : Except String User :=
  match email, password with
  | some email, some password =>
      if email = "" ∨ password = "" then .error "Email and password are required"
      else if jsLength password < 6 then .error "Password must be at least 6 characters"
      else
        .ok { id := 1
              firstName := "Beauty"
              lastName := "Lover"
              email := email
              username := (split email '@').1
              image := "https://i.pravatar.cc/150?u=" ++ email
              token := "mock-jwt-token-" ++ toString now }
  | _, _ => .error "Email and password are required"

/-- The argument of `apiService.register`. -/
structure RegisterData where
  fullName : Option String
  email : Option String
  password : Option String
  confirmPassword : Option String
  deriving DecidableEq

/-- The mock `apiService.register(userData)`. -/
def apiService.register (now : Nat) (userData : RegisterData) : Except String User :=
  match userData.fullName, userData.email, userData.password, userData.confirmPassword with
  | some fullName, some email, some password, some confirmPassword =>
      if fullName = "" ∨ email = "" ∨ password = "" ∨ confirmPassword = "" then
        .error "All fields are required"
      else if password ≠ confirmPassword then .error "Passwords do not match"
      else if jsLength password < 6 then .error "Password must be at least 6 characters"
      else
        .ok { id := now
              firstName := (splitName fullName).1
              lastName := (splitName fullName).2
              email := email
              username := (split email '@').1
              image := "https://i.pravatar.cc/150?u=" ++ email
              token := "mock-jwt-token-" ++ toString now }
  | _, _, _, _ => .error "All fields are required"

/-- The loop of `handleAddToBag` in `ProductDetailScreen.js`: `addToCart(product)` is
called `quantity` times. -/
def handleAddToBag (product : Product) : Nat → Store → Store
  | 0, s => s
  | quantity + 1, s => handleAddToBag product quantity (addToCart product s)

/-- A registration form that passes every check. -/
def sampleRegistration : RegisterData :=
  { fullName := some "Ana Maria Lopez", email := some "ana@x.org"
    password := some "secret", confirmPassword := some "secret" }

/-- The user `register` returns for `sampleRegistration` at time 7. -/
def sampleRegistered : User :=
  { id := 7, firstName := "Ana", lastName := "Maria Lopez", email := "ana@x.org"
    username := "ana", image := "https://i.pravatar.cc/150?u=ana@x.org"
    token := "mock-jwt-token-7" }


/-! ## Binary64 arithmetic

JavaScript numbers are IEEE 754 binary64 values. A finite binary64 value is a rational;
`roundBinary64` rounds a rational to the nearest one, ties to the even significand,
with gradual underflow. Values beyond the finite range (magnitude `2 ^ 1024` and up) are
outside the model. -/

/-- The number of halvings that bring `n` below 2, at most `fuel` of them. -/
def halvings : Nat → Nat → Nat
  | 0, _ => 0
  | fuel + 1, n => if n < 2 then 0 else halvings fuel (n / 2) + 1

/-- The integer part of the binary logarithm of `n`, 0 for `n < 2`. -/
def floorLog2 (n : Nat) : Nat :=
  halvings n n

/-- The exponent `e` with `2 ^ e ≤ n / d < 2 ^ (e + 1)`, for `n` and `d` positive. -/
def binaryExponent (n d : Nat) : Int :=
  let a := floorLog2 n
  let b := floorLog2 d
  if b ≤ a then
    if d * 2 ^ (a - b) ≤ n then ((a - b : Nat) : Int) else ((a - b : Nat) : Int) - 1
  else
    if d ≤ n * 2 ^ (b - a) then -((b - a : Nat) : Int) else -((b - a : Nat) : Int) - 1

/-- The integer nearest to `n / d`, the even one of the two when `n / d` is half-way. -/
def roundHalfEven (n d : Nat) : Nat :=
  let k := n / d
  let r := n % d
  if 2 * r < d then k else if d < 2 * r then k + 1 else if k % 2 = 0 then k else k + 1

/-- The binary64 value nearest to `n / d`, for `n` and `d` positive: a significand of 53
bits at the exponent of `n / d`, or at the least exponent `-1074` for subnormal values. -/
def roundMagnitude (n d : Nat) : ℚ :=
  let q := max (binaryExponent n d - 52) (-1074)
  if 0 ≤ q then ((roundHalfEven n (d * 2 ^ q.toNat) * 2 ^ q.toNat : Nat) : ℚ)
  else mkRat (roundHalfEven (n * 2 ^ (-q).toNat) d) (2 ^ (-q).toNat)

/-- The binary64 value nearest to the rational `x`. -/
def roundBinary64 (x : ℚ) : ℚ :=
  if x = 0 then 0
  else if 0 < x then roundMagnitude x.num.natAbs x.den
  else -roundMagnitude x.num.natAbs x.den

/-- The operator `a + b` on numbers. -/
def addNumber (a b : ℚ) : ℚ :=
  roundBinary64 (a + b)

/-- The operator `a * b` on numbers. -/
def mulNumber (a b : ℚ) : ℚ :=
  roundBinary64 (a * b)

/-- The query `getCartTotal()` as the engine computes it: the price literal and the
quantity of each line are binary64 values and each `*` and `+` rounds. -/
def getCartTotalBinary64 (s : Store) : ℚ :=
  s.state.cart.foldl
    (fun total item =>
      addNumber total (mulNumber (roundBinary64 item.price) (roundBinary64 item.quantity)))
    0

/-- The first seed product of the catalog, id 1001 at 9.99. -/
def seedMascara : Product :=
  { id := 1001
    title := "Essence Mascara Lash Princess"
    description := "The Essence Mascara Lash Princess is a popular mascara known for its volumizing and lengthening effects. Achieve dramatic lashes with this long-lasting formula."
    price := 9.99
    discountPercentage := some 7.17
    rating := some 4.94
    stock := 5
    brand := some "Essence"
    category := "beauty"
    thumbnail := "https://cdn.dummyjson.com/products/images/beauty/Essence%20Mascara%20Lash%20Princess/thumbnail.png"
    images :=
      ["https://cdn.dummyjson.com/products/images/beauty/Essence%20Mascara%20Lash%20Princess/1.png",
       "https://cdn.dummyjson.com/products/images/beauty/Essence%20Mascara%20Lash%20Princess/2.png"]
    quantity := none }

/-- The store after `Add to Bag` with quantity 5 on the first seed product, from the
initial store. -/
def mascaraStore : Store :=
  handleAddToBag seedMascara 5 (initialStore none)


/-! ## Lemmas on the cart transitions -/

theorem map_id_setQuantity (cart : List CartLine) (k : Int) (f : CartLine → Int) :
    (cart.map (fun item => if item.id = k then { item with quantity := f item } else item)).map
        (fun item => item.toProductFields)
      = cart.map (fun item => item.toProductFields) := by
  rw [List.map_map]
  apply List.map_congr_left
  intro item _
  simp only [Function.comp]
  split_ifs <;> rfl

theorem uniqueIds_of_fields_eq {a b : List CartLine}
    (h : a.map (fun item => item.toProductFields) = b.map (fun item => item.toProductFields))
    (hb : UniqueIds b) : UniqueIds a := by
  have e : ∀ l : List CartLine, l.map (fun item => item.id)
      = (l.map (fun item => item.toProductFields)).map (fun f => f.id) := by
    intro l; rw [List.map_map]; rfl
  unfold UniqueIds at *
  rw [e a, h, ← e b]; exact hb

theorem find?_id_eq_none {cart : List CartLine} {k : Int} :
    cart.find? (fun item => item.id == k) = none ↔ ∀ item ∈ cart, item.id ≠ k := by
  simp [List.find?_eq_none]

theorem find?_id_isSome {cart : List CartLine} {k : Int} (h : ∃ item ∈ cart, item.id = k) :
    ∃ found, cart.find? (fun item => item.id == k) = some found := by
  cases hf : cart.find? (fun item => item.id == k) with
  | some found => exact ⟨found, rfl⟩
  | none =>
    obtain ⟨item, hmem, hid⟩ := h
    exact absurd hid (find?_id_eq_none.mp hf item hmem)

theorem addToCart_cart_of_mem {s : Store} {product : Product}
    (h : ∃ item ∈ s.state.cart, item.id = product.id) :
    (addToCart product s).state.cart
      = s.state.cart.map (fun item =>
          if item.id = product.id then { item with quantity := item.quantity + 1 } else item) := by
  obtain ⟨found, hf⟩ := find?_id_isSome h
  simp [addToCart, dispatch, appReducer, hf]

theorem addToCart_cart_of_not_mem {s : Store} {product : Product}
    (h : ∀ item ∈ s.state.cart, item.id ≠ product.id) :
    (addToCart product s).state.cart = s.state.cart ++ [lineOf product 1] := by
  have hf := find?_id_eq_none.mpr h
  simp [addToCart, dispatch, appReducer, hf]

theorem appReducer_uniqueIds (state : AppState) (action : Action)
    (h : UniqueIds state.cart) : UniqueIds (appReducer state action).cart := by
  cases action with
  | SET_LOADING payload => exact h
  | SET_ERROR payload => exact h
  | SET_USER payload => exact h
  | SET_PRODUCTS payload => exact h
  | ADD_TO_CART payload =>
    cases hf : state.cart.find? (fun item => item.id == payload.id) with
    | some found =>
      simp only [appReducer, hf]
      exact uniqueIds_of_fields_eq (map_id_setQuantity _ _ _) h
    | none =>
      simp only [appReducer, hf]
      have hno := find?_id_eq_none.mp hf
      unfold UniqueIds at *
      rw [List.map_append, List.nodup_append]
      refine ⟨h, by simp, ?_⟩
      intro a ha hb
      simp only [List.map_cons, List.map_nil, List.mem_singleton] at hb
      obtain ⟨item, hmem, rfl⟩ := List.mem_map.mp ha
      exact hno item hmem hb
  | REMOVE_FROM_CART payload =>
    simp only [appReducer]
    exact List.Nodup.sublist (List.Sublist.map _ (List.filter_sublist _)) h
  | UPDATE_CART_QUANTITY id quantity =>
    simp only [appReducer]
    exact uniqueIds_of_fields_eq (map_id_setQuantity _ _ _) h
  | CLEAR_CART => simp [appReducer, UniqueIds]
  | LOGOUT => simp [appReducer, UniqueIds, initialState]
  | UNKNOWN => exact h

theorem run_uniqueIds (s : Store) (call : Call) (h : UniqueIds s.state.cart) :
    UniqueIds (call.run s).state.cart := by
  cases call with
  | loadUserData readOk =>
    simp only [Call.run, loadUserData]
    split
    · split
      · exact appReducer_uniqueIds _ _ h
      · exact h
      · exact h
    · exact h
  | setLoading loading => exact appReducer_uniqueIds _ _ h
  | setError error => exact appReducer_uniqueIds _ _ h
  | login writeOk userData =>
    cases writeOk with
    | true => exact appReducer_uniqueIds _ (.SET_USER userData) h
    | false => exact h
  | logout removeOk =>
    cases removeOk with
    | true => exact appReducer_uniqueIds _ .LOGOUT h
    | false => exact h
  | setProducts products => exact appReducer_uniqueIds _ _ h
  | addToCart product => exact appReducer_uniqueIds _ _ h
  | removeFromCart productId => exact appReducer_uniqueIds _ _ h
  | updateCartQuantity productId quantity =>
    simp only [Call.run, updateCartQuantity]
    split
    · exact appReducer_uniqueIds _ _ h
    · exact appReducer_uniqueIds _ _ h
  | clearCart => exact appReducer_uniqueIds _ _ h

theorem runCalls_uniqueIds (calls : List Call) (s : Store) (h : UniqueIds s.state.cart) :
    UniqueIds (runCalls calls s).state.cart := by
  induction calls generalizing s with
  | nil => exact h
  | cons call rest ih => exact ih (call.run s) (run_uniqueIds s call h)

/-! ## The claims -/

/-- C1 (evaluation at the failing input): with a signed-in user and one cart line, a
`logout()` whose `AsyncStorage.removeItem` rejects returns normally and leaves the store
exactly as it was, still authenticated and with its cart line; the same call with a
successful removal signs the user out, empties the cart and keeps the product list. -/
theorem logout_removal_failure_keeps_session :
    logout false sampleStore = sampleStore ∧
    (logout false sampleStore).state.isAuthenticated = true ∧
    (logout false sampleStore).state.cart = [lineOf (sampleProduct 7 5) 2] ∧
    (logout true sampleStore).state.isAuthenticated = false ∧
    (logout true sampleStore).state.cart = [] ∧
    (logout true sampleStore).state.products = sampleStore.state.products := by
  refine ⟨rfl, rfl, rfl, rfl, rfl, rfl⟩

/-- C2: in every store reachable from the initial store (over any content of the storage
slot) by any sequence of calls of the action API, with any outcome of the storage
operations, no two cart lines share a product id. -/
theorem reachable_cart_uniqueIds (slot : Option StoredText) (calls : List Call) :
    UniqueIds (runCalls calls (initialStore slot)).state.cart :=
  runCalls_uniqueIds calls (initialStore slot) (by simp [UniqueIds, initialStore, initialState])

/-! ### Sums over the cart -/

theorem foldl_add_quantity (cart : List CartLine) (a : Int) :
    cart.foldl (fun total item => total + item.quantity) a
      = a + (cart.map (fun item => item.quantity)).sum := by
  induction cart generalizing a with
  | nil => simp
  | cons x xs ih => simp only [List.foldl_cons, ih, List.map_cons, List.sum_cons]; ring

theorem foldl_add_price (cart : List CartLine) (a : ℚ) :
    cart.foldl (fun (total : ℚ) (item : CartLine) => total + item.price * item.quantity) a
      = a + (cart.map (fun item => item.price * (item.quantity : ℚ))).sum := by
  induction cart generalizing a with
  | nil => simp
  | cons x xs ih => simp only [List.foldl_cons, ih, List.map_cons, List.sum_cons]; ring

theorem getCartItemsCount_eq (s : Store) :
    getCartItemsCount s = (s.state.cart.map (fun item => item.quantity)).sum := by
  simp [getCartItemsCount, foldl_add_quantity]

theorem sum_quantity_increment (cart : List CartLine) (k : Int)
    (hmem : ∃ item ∈ cart, item.id = k) (hu : UniqueIds cart) :
    ((cart.map (fun item =>
        if item.id = k then { item with quantity := item.quantity + 1 } else item)).map
          (fun item => item.quantity)).sum
      = (cart.map (fun item => item.quantity)).sum + 1 := by
  induction cart with
  | nil => simp at hmem
  | cons x xs ih =>
    unfold UniqueIds at hu
    rw [List.map_cons, List.nodup_cons] at hu
    obtain ⟨hx, hxs⟩ := hu
    by_cases hk : x.id = k
    · have hnone : ∀ item ∈ xs, item.id ≠ k := by
        intro item hi he
        exact hx (List.mem_map.mpr ⟨item, hi, by rw [he, hk]⟩)
      have hsame : xs.map (fun item =>
          if item.id = k then { item with quantity := item.quantity + 1 } else item) = xs := by
        conv_rhs => rw [← List.map_id xs]
        apply List.map_congr_left
        intro item hi
        simp [hnone item hi]
      rw [List.map_cons, if_pos hk, hsame]
      simp only [List.map_cons, List.sum_cons]
      ring
    · have hmem2 : ∃ item ∈ xs, item.id = k := by
        obtain ⟨item, hi, he⟩ := hmem
        rcases List.mem_cons.mp hi with rfl | hi
        · exact absurd he hk
        · exact ⟨item, hi, he⟩
      rw [List.map_cons, if_neg hk]
      simp only [List.map_cons, List.sum_cons]
      rw [ih hmem2 hxs]
      ring

theorem addEach_cart (products : List Product) (s : Store)
    (hd : (products.map (fun p => p.id)).Nodup)
    (hfresh : ∀ p ∈ products, ∀ item ∈ s.state.cart, item.id ≠ p.id) :
    (addEach products s).state.cart
      = s.state.cart ++ products.map (fun p => lineOf p 1) := by
  induction products generalizing s with
  | nil => simp [addEach]
  | cons p ps ih =>
    rw [List.map_cons, List.nodup_cons] at hd
    have hstep : (addToCart p s).state.cart = s.state.cart ++ [lineOf p 1] :=
      addToCart_cart_of_not_mem (hfresh p (List.mem_cons_self _ _))
    have hrest : ∀ q ∈ ps, ∀ item ∈ (addToCart p s).state.cart, item.id ≠ q.id := by
      intro q hq item hi
      rw [hstep, List.mem_append] at hi
      rcases hi with hi | hi
      · exact hfresh q (List.mem_cons_of_mem _ hq) item hi
      · rw [List.mem_singleton] at hi
        subst hi
        intro he
        exact hd.1 (List.mem_map.mpr ⟨q, hq, he.symm⟩)
    have h := ih (addToCart p s) hd.2 hrest
    show (addEach ps (addToCart p s)).state.cart = _
    rw [h, hstep]
    simp

theorem filter_lines_eq_singleton (products : List Product) (p : Product)
    (hd : (products.map (fun q => q.id)).Nodup) (hp : p ∈ products) :
    (products.map (fun q => lineOf q 1)).filter (fun item => item.id == p.id)
      = [lineOf p 1] := by
  induction products with
  | nil => cases hp
  | cons q qs ih =>
    rw [List.map_cons, List.nodup_cons] at hd
    rcases List.mem_cons.mp hp with rfl | hq
    · have hnone : ∀ item ∈ qs.map (fun q => lineOf q 1), ¬ ((item.id == p.id) = true) := by
        intro item hi he
        obtain ⟨r, hr, rfl⟩ := List.mem_map.mp hi
        exact hd.1 (List.mem_map.mpr ⟨r, hr, by simpa [lineOf] using he⟩)
      have hnil : (qs.map (fun q => lineOf q 1)).filter (fun item => item.id == p.id) = [] :=
        List.filter_eq_nil_iff.mpr hnone
      rw [List.map_cons, List.filter_cons, if_pos (by simp [lineOf]), hnil]
    · have hne : ¬ (((lineOf q 1).id == p.id) = true) := by
        intro he
        have hid : q.id = p.id := by simpa [lineOf] using he
        exact hd.1 (List.mem_map.mpr ⟨p, hq, hid.symm⟩)
      rw [List.map_cons, List.filter_cons, if_neg hne]
      exact ih hd.2 hq

theorem addToCart_eq_withCart (s : Store) (product : Product) :
    addToCart product s = withCart s (addToCart product s).state.cart := by
  simp only [addToCart, dispatch, appReducer, withCart]
  cases s.state.cart.find? (fun item => item.id == product.id) <;> rfl

theorem map_setQuantity_of_absent (cart : List CartLine) (k : Int) (f : CartLine → Int)
    (h : ∀ item ∈ cart, item.id ≠ k) :
    cart.map (fun item => if item.id = k then { item with quantity := f item } else item)
      = cart := by
  conv_rhs => rw [← List.map_id cart]
  apply List.map_congr_left
  intro item hi
  simp [h item hi]

/-- C3: when the cart has a line for `product.id` and at most one line per id,
`addToCart(product)` keeps the number of lines, keeps every line's product fields in the
same order, raises the quantity of the line with that id by exactly 1 and returns every
other line as it was, so the badge count grows by exactly 1; and two calls of
`addToCart(p)` on a cart without `p` append the single line of `p` with quantity 2. -/
theorem addToCart_existing_line (s : Store) (product : Product) :
    ((∃ item ∈ s.state.cart, item.id = product.id) → UniqueIds s.state.cart →
      (addToCart product s).state.cart.length = s.state.cart.length ∧
      (addToCart product s).state.cart.map (fun item => item.toProductFields)
        = s.state.cart.map (fun item => item.toProductFields) ∧
      (∀ (i : Nat) (item : CartLine), s.state.cart[i]? = some item → item.id = product.id →
        (addToCart product s).state.cart[i]?
          = some { item with quantity := item.quantity + 1 }) ∧
      (∀ (i : Nat) (item : CartLine), s.state.cart[i]? = some item → item.id ≠ product.id →
        (addToCart product s).state.cart[i]? = some item) ∧
      getCartItemsCount (addToCart product s) = getCartItemsCount s + 1) ∧
    ((∀ item ∈ s.state.cart, item.id ≠ product.id) →
      (addToCart product (addToCart product s)).state.cart
        = s.state.cart ++ [lineOf product 2]) := by
  constructor
  · intro hmem hu
    have hc := addToCart_cart_of_mem hmem
    refine ⟨?_, ?_, ?_, ?_, ?_⟩
    · rw [hc, List.length_map]
    · rw [hc]; exact map_id_setQuantity _ _ _
    · intro i item hi he
      rw [hc, List.getElem?_map, hi]
      simp [he]
    · intro i item hi he
      rw [hc, List.getElem?_map, hi]
      simp [he]
    · rw [getCartItemsCount_eq, getCartItemsCount_eq, hc]
      exact sum_quantity_increment _ _ hmem hu
  · intro hno
    have h1 := addToCart_cart_of_not_mem hno
    have hmem : ∃ item ∈ (addToCart product s).state.cart, item.id = product.id :=
      ⟨lineOf product 1, by rw [h1]; simp, rfl⟩
    rw [addToCart_cart_of_mem hmem, h1, List.map_append,
      map_setQuantity_of_absent _ _ _ hno]
    simp [lineOf]

/-- C3 at a concrete store: the sample cart holds product 7 with quantity 2. -/
theorem addToCart_existing_line_witness :
    (∃ item ∈ sampleStore.state.cart, item.id = (sampleProduct 7 5).id) ∧
    UniqueIds sampleStore.state.cart ∧
    getCartItemsCount (addToCart (sampleProduct 7 5) sampleStore)
      = getCartItemsCount sampleStore + 1 ∧
    (∀ item ∈ sampleStore.state.cart, item.id ≠ (sampleProduct 8 3).id) ∧
    (addToCart (sampleProduct 8 3) (addToCart (sampleProduct 8 3) sampleStore)).state.cart
      = sampleStore.state.cart ++ [lineOf (sampleProduct 8 3) 2] :=
  have hm : ∃ item ∈ sampleStore.state.cart, item.id = (sampleProduct 7 5).id :=
    ⟨lineOf (sampleProduct 7 5) 2, by simp [sampleStore], rfl⟩
  have hu : UniqueIds sampleStore.state.cart := by decide
  have hno : ∀ item ∈ sampleStore.state.cart, item.id ≠ (sampleProduct 8 3).id := by decide
  ⟨hm, hu, ((addToCart_existing_line sampleStore (sampleProduct 7 5)).1 hm hu).2.2.2.2,
    hno, (addToCart_existing_line sampleStore (sampleProduct 8 3)).2 hno⟩

/-- C4: when the cart has no line for `product.id`, `addToCart(product)` changes nothing
but the cart, which becomes the old cart followed by one new line; that line carries the
product's fields and quantity 1 whatever `quantity` property the argument carried, and
every existing line stays at its index with its contents. -/
theorem addToCart_new_line (s : Store) (product : Product) (carried : Option Int)
    (h : ∀ item ∈ s.state.cart, item.id ≠ product.id) :
    addToCart { product with quantity := carried } s
      = withCart s (s.state.cart ++ [lineOf product 1]) ∧
    (lineOf product 1).toProductFields = product.toProductFields ∧
    (lineOf product 1).quantity = 1 ∧
    (∀ (i : Nat) (item : CartLine), s.state.cart[i]? = some item →
      (addToCart { product with quantity := carried } s).state.cart[i]? = some item) ∧
    (addToCart { product with quantity := carried } s).state.cart.length
      = s.state.cart.length + 1 ∧
    (addToCart { product with quantity := carried } s).state.cart[s.state.cart.length]?
      = some (lineOf product 1) := by
  have hc : (addToCart { product with quantity := carried } s).state.cart
      = s.state.cart ++ [lineOf product 1] :=
    @addToCart_cart_of_not_mem s { product with quantity := carried } h
  refine ⟨?_, rfl, rfl, ?_, ?_, ?_⟩
  · rw [addToCart_eq_withCart, hc]
  · intro i item hi
    have hlt : i < s.state.cart.length := (List.getElem?_eq_some_iff.mp hi).1
    rw [hc, List.getElem?_append_left hlt, hi]
  · rw [hc]; simp
  · rw [hc]; simp

/-- C4 at a concrete store: product 8 is not in the sample cart. -/
theorem addToCart_new_line_witness :
    (∀ item ∈ sampleStore.state.cart, item.id ≠ (sampleProduct 8 3).id) ∧
    addToCart { sampleProduct 8 3 with quantity := some 40 } sampleStore
      = withCart sampleStore (sampleStore.state.cart ++ [lineOf (sampleProduct 8 3) 1]) :=
  have hno : ∀ item ∈ sampleStore.state.cart, item.id ≠ (sampleProduct 8 3).id := by decide
  ⟨hno, (addToCart_new_line sampleStore (sampleProduct 8 3) (some 40) hno).1⟩

/-- C5: starting from an empty cart, `addToCart` applied in turn to `n` products with
pairwise distinct ids gives `getCartItemsCount() = n`; the cart is the list of the
products' lines with quantity 1 in call order, and for each product the lines with its
id are exactly that one line. -/
theorem addEach_distinct_products (products : List Product) (s : Store)
    (hempty : s.state.cart = []) (hd : (products.map (fun p => p.id)).Nodup) :
    getCartItemsCount (addEach products s) = products.length ∧
    (addEach products s).state.cart = products.map (fun p => lineOf p 1) ∧
    (∀ p ∈ products,
      (addEach products s).state.cart.filter (fun item => item.id == p.id)
        = [lineOf p 1]) := by
  have hc : (addEach products s).state.cart = products.map (fun p => lineOf p 1) := by
    have h := addEach_cart products s hd (by
      intro p _ item hi
      rw [hempty] at hi
      cases hi)
    rw [h, hempty, List.nil_append]
  refine ⟨?_, hc, ?_⟩
  · rw [getCartItemsCount_eq, hc, List.map_map]
    have hone : ((fun item : CartLine => item.quantity) ∘ fun p : Product => lineOf p 1)
        = fun _ => (1 : Int) := rfl
    rw [hone]
    simp
  · intro p hp
    rw [hc]
    exact filter_lines_eq_singleton products p hd hp

/-- C5 at a concrete input: two distinct products added to the emptied sample store. -/
theorem addEach_distinct_products_witness :
    (withCart sampleStore []).state.cart = [] ∧
    ([sampleProduct 1 2, sampleProduct 2 3].map (fun p => p.id)).Nodup ∧
    getCartItemsCount (addEach [sampleProduct 1 2, sampleProduct 2 3] (withCart sampleStore []))
      = 2 :=
  have hd : ([sampleProduct 1 2, sampleProduct 2 3].map (fun p => p.id)).Nodup := by decide
  ⟨rfl, hd,
    (addEach_distinct_products [sampleProduct 1 2, sampleProduct 2 3]
      (withCart sampleStore []) rfl hd).1⟩

/-- C6: for a quantity `<= 0`, `updateCartQuantity(productId, quantity)` yields exactly
the store that `removeFromCart(productId)` yields, and after `updateCartQuantity(id, 0)`
the cart has no line with that id. -/
theorem updateCartQuantity_nonpositive (s : Store) (productId quantity : Int)
    (h : quantity ≤ 0) :
    updateCartQuantity productId quantity s = removeFromCart productId s ∧
    (∀ item ∈ (updateCartQuantity productId 0 s).state.cart, item.id ≠ productId) := by
  constructor
  · simp only [updateCartQuantity, if_pos h]
  · intro item hi
    simp only [updateCartQuantity, le_refl, if_true, removeFromCart, dispatch,
      appReducer] at hi
    simpa using (List.mem_filter.mp hi).2

/-- C6 at a concrete store: quantity 0 for the line of product 7 empties the sample
cart, as `removeFromCart(7)` does. -/
theorem updateCartQuantity_nonpositive_witness :
    (0 : Int) ≤ 0 ∧
    updateCartQuantity 7 0 sampleStore = removeFromCart 7 sampleStore ∧
    (updateCartQuantity 7 0 sampleStore).state.cart = [] :=
  ⟨le_refl 0, (updateCartQuantity_nonpositive sampleStore 7 0 (le_refl 0)).1, by decide⟩

/-- C7: for a quantity `q > 0`, `updateCartQuantity(id, q)` keeps the number of lines and
every line's product fields in the same order, gives each line with that id the quantity
`q` whatever its quantity was, returns every other line as it was, and leaves the store
as it is when no line has that id. -/
theorem updateCartQuantity_positive (s : Store) (productId quantity : Int)
    (h : 0 < quantity) :
    (updateCartQuantity productId quantity s).state.cart.length = s.state.cart.length ∧
    (updateCartQuantity productId quantity s).state.cart.map (fun item => item.toProductFields)
      = s.state.cart.map (fun item => item.toProductFields) ∧
    (∀ (i : Nat) (item : CartLine), s.state.cart[i]? = some item → item.id = productId →
      (updateCartQuantity productId quantity s).state.cart[i]?
        = some { item with quantity := quantity }) ∧
    (∀ (i : Nat) (item : CartLine), s.state.cart[i]? = some item → item.id ≠ productId →
      (updateCartQuantity productId quantity s).state.cart[i]? = some item) ∧
    ((∀ item ∈ s.state.cart, item.id ≠ productId) →
      updateCartQuantity productId quantity s = s) := by
  have hq : ¬ quantity ≤ 0 := not_le.mpr h
  have hs : updateCartQuantity productId quantity s
      = withCart s (s.state.cart.map (fun item =>
          if item.id = productId then { item with quantity := quantity } else item)) := by
    simp only [updateCartQuantity, if_neg hq]
    rfl
  have hc : (updateCartQuantity productId quantity s).state.cart
      = s.state.cart.map (fun item =>
          if item.id = productId then { item with quantity := quantity } else item) := by
    rw [hs]; rfl
  refine ⟨?_, ?_, ?_, ?_, ?_⟩
  · rw [hc, List.length_map]
  · rw [hc]; exact map_id_setQuantity _ _ (fun _ => quantity)
  · intro i item hi he
    rw [hc, List.getElem?_map, hi]
    simp [he]
  · intro i item hi he
    rw [hc, List.getElem?_map, hi]
    simp [he]
  · intro hno
    rw [hs, map_setQuantity_of_absent _ _ (fun _ => quantity) hno]
    rfl

/-- C7 at a concrete store: the line of product 7 has quantity 2 and gets quantity 9. -/
theorem updateCartQuantity_positive_witness :
    (0 : Int) < 9 ∧
    (updateCartQuantity 7 9 sampleStore).state.cart[0]?
      = some { lineOf (sampleProduct 7 5) 2 with quantity := 9 } :=
  ⟨by decide,
    (updateCartQuantity_positive sampleStore 7 9 (by decide)).2.2.1 0
      (lineOf (sampleProduct 7 5) 2) rfl rfl⟩

/-- C8: `removeFromCart(productId)` changes nothing but the cart; the new cart has no line
with that id, is the old cart with lines dropped (order kept), holds every line of
another id as often as before, and the store is returned as it was when no line has that
id. -/
theorem removeFromCart_lines (s : Store) (productId : Int) :
    removeFromCart productId s = withCart s (removeFromCart productId s).state.cart ∧
    (∀ item ∈ (removeFromCart productId s).state.cart, item.id ≠ productId) ∧
    (removeFromCart productId s).state.cart.Sublist s.state.cart ∧
    (∀ item : CartLine, item.id ≠ productId →
      (removeFromCart productId s).state.cart.count item = s.state.cart.count item) ∧
    ((∀ item ∈ s.state.cart, item.id ≠ productId) → removeFromCart productId s = s) := by
  have hc : (removeFromCart productId s).state.cart
      = s.state.cart.filter (fun item => item.id != productId) := rfl
  refine ⟨rfl, ?_, ?_, ?_, ?_⟩
  · intro item hi
    rw [hc] at hi
    simpa using (List.mem_filter.mp hi).2
  · rw [hc]; exact List.filter_sublist _
  · intro item hne
    rw [hc]
    exact List.count_filter (by simpa using hne)
  · intro hno
    have hsame : s.state.cart.filter (fun item => item.id != productId) = s.state.cart :=
      List.filter_eq_self.mpr (fun item hi => by simpa using hno item hi)
    have hs : removeFromCart productId s
        = withCart s (s.state.cart.filter (fun item => item.id != productId)) := rfl
    rw [hs, hsame]
    rfl

/-- C8 at a concrete store: no line of the sample cart has id 8, so removing 8 returns
the store as it was, and removing 7 empties its cart. -/
theorem removeFromCart_lines_witness :
    (∀ item ∈ sampleStore.state.cart, item.id ≠ 8) ∧
    removeFromCart 8 sampleStore = sampleStore ∧
    (removeFromCart 7 sampleStore).state.cart = [] :=
  have hno : ∀ item ∈ sampleStore.state.cart, item.id ≠ 8 := by decide
  ⟨hno, (removeFromCart_lines sampleStore 8).2.2.2.2 hno, by decide⟩

/-- C9: `getCartTotal()` is the sum over the cart lines of `price * quantity` with the
listed price; it is 0 for the empty cart, and two stores whose carts agree line by line
once the discount is disregarded have the same total. -/
theorem getCartTotal_sum (s t : Store) :
    getCartTotal s = (s.state.cart.map (fun item => item.price * (item.quantity : ℚ))).sum ∧
    getCartTotal (withCart s []) = 0 ∧
    (s.state.cart.map withoutDiscount = t.state.cart.map withoutDiscount →
      getCartTotal s = getCartTotal t) := by
  have hsum : ∀ u : Store, getCartTotal u
      = (u.state.cart.map (fun item => item.price * (item.quantity : ℚ))).sum := by
    intro u
    simp [getCartTotal, foldl_add_price]
  have hdrop : ∀ cart : List CartLine,
      cart.map (fun item => item.price * (item.quantity : ℚ))
        = (cart.map withoutDiscount).map (fun item => item.price * (item.quantity : ℚ)) := by
    intro cart
    rw [List.map_map]
    rfl
  refine ⟨hsum s, ?_, ?_⟩
  · simp [getCartTotal, withCart]
  · intro h
    rw [hsum s, hsum t, hdrop s.state.cart, hdrop t.state.cart, h]

/-- C9 at a concrete pair of stores: the same line with a 10 percent and with a 50
percent discount; both totals are `5 * 2`. -/
theorem getCartTotal_sum_witness :
    sampleStore.state.cart.map withoutDiscount
      = (withCart sampleStore
          [{ lineOf (sampleProduct 7 5) 2 with discountPercentage := some 50 }]).state.cart.map
            withoutDiscount ∧
    getCartTotal sampleStore
      = getCartTotal (withCart sampleStore
          [{ lineOf (sampleProduct 7 5) 2 with discountPercentage := some 50 }]) ∧
    getCartTotal sampleStore = 10 :=
  ⟨rfl,
    (getCartTotal_sum sampleStore (withCart sampleStore
      [{ lineOf (sampleProduct 7 5) 2 with discountPercentage := some 50 }])).2.2 rfl,
    by simp [getCartTotal, sampleStore, lineOf, sampleProduct]; norm_num⟩

/-- C10: `getCartItemsCount()` is the sum of the quantities of all lines, not the number
of lines: it is 0 for the empty cart and 3 for a cart of one line with quantity 3. -/
theorem getCartItemsCount_sum (s : Store) (line : CartLine) :
    getCartItemsCount s = (s.state.cart.map (fun item => item.quantity)).sum ∧
    getCartItemsCount (withCart s []) = 0 ∧
    getCartItemsCount (withCart s [{ line with quantity := 3 }]) = 3 ∧
    (withCart s [{ line with quantity := 3 }]).state.cart.length = 1 := by
  refine ⟨getCartItemsCount_eq s, ?_, ?_, rfl⟩
  · simp [getCartItemsCount, withCart]
  · simp [getCartItemsCount, withCart]

/-! ## Session invariants -/

theorem appReducer_auth (state : AppState) (action : Action)
    (h : state.isAuthenticated = state.user.isSome) :
    (appReducer state action).isAuthenticated = (appReducer state action).user.isSome := by
  cases action with
  | ADD_TO_CART payload =>
    simp only [appReducer]
    cases state.cart.find? (fun item => item.id == payload.id) <;> exact h
  | SET_USER payload => rfl
  | LOGOUT => rfl
  | SET_LOADING payload => exact h
  | SET_ERROR payload => exact h
  | SET_PRODUCTS payload => exact h
  | REMOVE_FROM_CART payload => exact h
  | UPDATE_CART_QUANTITY id quantity => exact h
  | CLEAR_CART => exact h
  | UNKNOWN => exact h

theorem run_auth (s : Store) (call : Call)
    (h : s.state.isAuthenticated = s.state.user.isSome) :
    (call.run s).state.isAuthenticated = (call.run s).state.user.isSome := by
  cases call with
  | loadUserData readOk =>
    simp only [Call.run, loadUserData]
    split
    · split
      · exact appReducer_auth _ _ h
      · exact h
      · exact h
    · exact h
  | setLoading loading => exact appReducer_auth _ _ h
  | setError error => exact appReducer_auth _ _ h
  | login writeOk userData =>
    cases writeOk with
    | true => exact appReducer_auth _ (.SET_USER userData) h
    | false => exact h
  | logout removeOk =>
    cases removeOk with
    | true => exact appReducer_auth _ .LOGOUT h
    | false => exact h
  | setProducts products => exact appReducer_auth _ _ h
  | addToCart product => exact appReducer_auth _ _ h
  | removeFromCart productId => exact appReducer_auth _ _ h
  | updateCartQuantity productId quantity =>
    simp only [Call.run, updateCartQuantity]
    split
    · exact appReducer_auth _ _ h
    · exact appReducer_auth _ _ h
  | clearCart => exact appReducer_auth _ _ h

/-- Every line of the cart has a quantity of at least 1. -/
theorem run_quantity_pos (s : Store) (call : Call)
    (h : ∀ item ∈ s.state.cart, 1 ≤ item.quantity) :
    ∀ item ∈ (call.run s).state.cart, 1 ≤ item.quantity := by
  cases call with
  | loadUserData readOk =>
    simp only [Call.run, loadUserData]
    split
    · split
      · exact h
      · exact h
      · exact h
    · exact h
  | setLoading loading => exact h
  | setError error => exact h
  | login writeOk userData =>
    cases writeOk with
    | true => exact h
    | false => exact h
  | logout removeOk =>
    cases removeOk with
    | true => intro item hi; cases hi
    | false => exact h
  | setProducts products => exact h
  | addToCart product =>
    intro item hi
    by_cases hmem : ∃ line ∈ s.state.cart, line.id = product.id
    · have hc : (Call.run s (.addToCart product)).state.cart = _ := addToCart_cart_of_mem hmem
      rw [hc] at hi
      obtain ⟨line, hl, rfl⟩ := List.mem_map.mp hi
      have := h line hl
      split_ifs
      · show 1 ≤ line.quantity + 1
        omega
      · exact this
    · have hno : ∀ line ∈ s.state.cart, line.id ≠ product.id :=
        fun line hl he => hmem ⟨line, hl, he⟩
      have hc : (Call.run s (.addToCart product)).state.cart = _ :=
        addToCart_cart_of_not_mem hno
      rw [hc, List.mem_append, List.mem_singleton] at hi
      rcases hi with hi | rfl
      · exact h item hi
      · exact le_refl 1
  | removeFromCart productId =>
    intro item hi
    exact h item (List.mem_filter.mp hi).1
  | updateCartQuantity productId quantity =>
    intro item hi
    simp only [Call.run, updateCartQuantity] at hi
    split at hi
    · exact h item (List.mem_filter.mp hi).1
    · rename_i hq
      obtain ⟨line, hl, rfl⟩ := List.mem_map.mp hi
      have := h line hl
      split_ifs
      · show 1 ≤ quantity
        omega
      · exact this
  | clearCart => intro item hi; cases hi

/-- C11: a `login(userData)` whose durable write fails throws, never resolves, and the
store after the call is the store before it; in particular a store that was not
authenticated and had no user is still so. -/
theorem login_write_failure (s : Store) (userData : Option User) :
    (∃ e, login false userData s = .error e) ∧
    (∀ s2, login false userData s ≠ .ok s2) ∧
    (Call.login false userData).run s = s ∧
    (s.state.isAuthenticated = false →
      ((Call.login false userData).run s).state.isAuthenticated = false) ∧
    (s.state.user = none → ((Call.login false userData).run s).state.user = none) := by
  refine ⟨⟨_, rfl⟩, ?_, rfl, fun h => h, fun h => h⟩
  intro s2 h
  simp [login] at h

/-- C12: the `LOGOUT` transition, and so a `logout()` whose storage removal succeeds,
yields loading false, no error, no user, not authenticated, an empty cart, and the
product list of the state before. -/
theorem logout_transition (s : Store) :
    appReducer s.state .LOGOUT
      = { user := none, isAuthenticated := false, products := s.state.products
          cart := [], loading := false, error := none } ∧
    (logout true s).state = appReducer s.state .LOGOUT ∧
    (logout true s).state.loading = false ∧
    (logout true s).state.error = none ∧
    (logout true s).state.user = none ∧
    (logout true s).state.isAuthenticated = false ∧
    (logout true s).state.cart = [] ∧
    (logout true s).state.products = s.state.products :=
  ⟨rfl, rfl, rfl, rfl, rfl, rfl, rfl, rfl⟩

/-- C13: in every store reachable from the initial store by any sequence of calls of the
action API (session restore, logins and logouts with any storage outcome included),
`isAuthenticated` is true exactly when a user is present. -/
theorem reachable_auth_iff_user (slot : Option StoredText) (calls : List Call) :
    (runCalls calls (initialStore slot)).state.isAuthenticated = true
      ↔ (runCalls calls (initialStore slot)).state.user ≠ none := by
  have key : ∀ (cs : List Call) (s : Store),
      s.state.isAuthenticated = s.state.user.isSome →
      (runCalls cs s).state.isAuthenticated = (runCalls cs s).state.user.isSome := by
    intro cs
    induction cs with
    | nil => intro s h; exact h
    | cons call rest ih => intro s h; exact ih (call.run s) (run_auth s call h)
  rw [key calls (initialStore slot) rfl, Option.isSome_iff_ne_none]

/-- C14: in every store reachable from the initial store by any sequence of calls of the
action API, `updateCartQuantity` with any integer quantity included, every cart line has
a quantity of at least 1. -/
theorem reachable_quantity_pos (slot : Option StoredText) (calls : List Call) :
    ∀ item ∈ (runCalls calls (initialStore slot)).state.cart, 1 ≤ item.quantity := by
  have key : ∀ (cs : List Call) (s : Store),
      (∀ item ∈ s.state.cart, 1 ≤ item.quantity) →
      ∀ item ∈ (runCalls cs s).state.cart, 1 ≤ item.quantity := by
    intro cs
    induction cs with
    | nil => intro s h; exact h
    | cons call rest ih => intro s h; exact ih (call.run s) (run_quantity_pos s call h)
  exact key calls (initialStore slot) (by intro item hi; cases hi)

/-- C14 at a concrete run: two `addToCart` calls for product 7, then a quantity update of
an absent product; the cart holds the line of product 7 with quantity 2. -/
theorem reachable_quantity_pos_witness :
    lineOf (sampleProduct 7 5) 2 ∈
      (runCalls [.addToCart (sampleProduct 7 5), .addToCart (sampleProduct 7 5),
        .updateCartQuantity 8 (-3)] (initialStore none)).state.cart ∧
    1 ≤ (lineOf (sampleProduct 7 5) 2).quantity :=
  have hmem : lineOf (sampleProduct 7 5) 2 ∈
      (runCalls [.addToCart (sampleProduct 7 5), .addToCart (sampleProduct 7 5),
        .updateCartQuantity 8 (-3)] (initialStore none)).state.cart := by decide
  ⟨hmem, reachable_quantity_pos none _ _ hmem⟩

/-! ## Lemmas on strings -/

theorem includes_iff (s k : String) : includes s k = true ↔ k.data <:+: s.data := by
  simp only [includes, List.any_eq_true, List.isPrefixOf_iff_prefix, List.mem_tails]
  rw [List.infix_iff_prefix_suffix]
  constructor
  · rintro ⟨t, ht, hk⟩
    exact ⟨t, hk, ht⟩
  · rintro ⟨t, hk, ht⟩
    exact ⟨t, ht, hk⟩

theorem infix_flatMap (lc : Char → List Char) {k s : List Char} (h : k <:+: s) :
    k.flatMap lc <:+: s.flatMap lc := by
  obtain ⟨a, b, rfl⟩ := h
  simp only [List.flatMap_append]
  exact ⟨_, _, rfl⟩

theorem flatMap_ascii {lc : Char → List Char} (h : AsciiFaithful lc) (l : List Char)
    (hl : ∀ c ∈ l, c.val < 128) : l.flatMap lc = l.map Char.toLower := by
  induction l with
  | nil => rfl
  | cons c cs ih =>
    rw [List.flatMap_cons, h c (hl c (List.mem_cons_self _ _)),
      ih (fun d hd => hl d (List.mem_cons_of_mem _ hd))]
    rfl

theorem toLowerCase_ascii {lc : Char → List Char} (h : AsciiFaithful lc) (s : String)
    (hs : ∀ c ∈ s.data, c.val < 128) : toLowerCase lc s = ⟨s.data.map Char.toLower⟩ := by
  simp only [toLowerCase, flatMap_ascii h s.data hs]

theorem infix_of_infix_separated {k a b : List Char} {x : Char} (hx : x ∉ k)
    (h : k <:+: a ++ x :: b) : k <:+: a ∨ k <:+: b := by
  obtain ⟨p, q, hpq⟩ := h
  rw [List.append_assoc] at hpq
  rcases List.append_eq_append_iff.mp hpq with ⟨a1, ha, hk⟩ | ⟨c1, hp, hk⟩
  · rcases List.append_eq_append_iff.mp hk with ⟨r, hr, _⟩ | ⟨c2, hk2, hc2⟩
    · left
      exact ⟨p, r, by rw [ha, hr, List.append_assoc]⟩
    · cases c2 with
      | nil =>
        left
        refine ⟨p, [], ?_⟩
        rw [ha, hk2]
        simp
      | cons z c3 =>
        exfalso
        apply hx
        rw [List.cons_append] at hc2
        have hz : x = z := (List.cons.inj hc2).1
        rw [hk2, hz]
        simp
  · cases c1 with
    | nil =>
      rw [List.nil_append] at hk
      cases k with
      | nil => left; exact List.nil_infix
      | cons z k1 =>
        exfalso
        apply hx
        rw [List.cons_append] at hk
        have hz : x = z := (List.cons.inj hk).1
        rw [hz]
        simp
    | cons z c2 =>
      right
      rw [List.cons_append] at hk
      have hb : b = c2 ++ (k ++ q) := (List.cons.inj hk).2
      exact ⟨c2, q, by rw [hb, List.append_assoc]⟩

/-- The text `isBeautyProduct` searches, as characters: the three lowered fields
separated by the lowered space. -/
theorem searchText_data (lc : Char → List Char) (product : Product) :
    (toLowerCase lc
        (product.title ++ " " ++ product.description ++ " " ++ product.category)).data
      = product.title.data.flatMap lc ++ (lc ' ' ++ (product.description.data.flatMap lc
          ++ (lc ' ' ++ product.category.data.flatMap lc))) := by
  simp [toLowerCase, List.flatMap_append]

theorem isBeautyProduct_iff (lc : Char → List Char) (product : Product) :
    isBeautyProduct lc product = true ↔
      ∃ keyword ∈ BEAUTY_KEYWORDS, keyword.data <:+:
        product.title.data.flatMap lc ++ (lc ' ' ++ (product.description.data.flatMap lc
          ++ (lc ' ' ++ product.category.data.flatMap lc))) := by
  simp only [isBeautyProduct, List.any_eq_true, includes_iff, searchText_data]

theorem keyword_ascii_lower : ∀ keyword ∈ BEAUTY_KEYWORDS,
    (∀ c ∈ keyword.data, c.val < 128) ∧ keyword.data.map Char.toLower = keyword.data
      ∧ ' ' ∉ keyword.data := by
  decide

/-! ## Lemmas on the merge of `getBeautyProducts` -/

theorem pushUnlessPresent_cases (acc : List Product) (x : Product) :
    (pushUnlessPresent acc x = acc ∧ ∃ p ∈ acc, p.id = x.id) ∨
    (pushUnlessPresent acc x = acc ++ [x] ∧ ∀ p ∈ acc, p.id ≠ x.id) := by
  unfold pushUnlessPresent
  cases hf : acc.find? (fun p => p.id == x.id) with
  | some found =>
    left
    exact ⟨rfl, found, List.mem_of_find?_eq_some hf, by simpa using List.find?_some hf⟩
  | none =>
    right
    refine ⟨rfl, ?_⟩
    intro p hp
    simpa using List.find?_eq_none.mp hf p hp

theorem merge_prefix_sublist (l acc : List Product) :
    ∃ rest, l.foldl pushUnlessPresent acc = acc ++ rest ∧ rest.Sublist l := by
  induction l generalizing acc with
  | nil => exact ⟨[], by simp, List.Sublist.refl _⟩
  | cons x xs ih =>
    rw [List.foldl_cons]
    rcases pushUnlessPresent_cases acc x with ⟨he, _⟩ | ⟨he, _⟩
    · obtain ⟨rest, hr, hs⟩ := ih acc
      exact ⟨rest, by rw [he, hr], List.Sublist.cons x hs⟩
    · obtain ⟨rest, hr, hs⟩ := ih (acc ++ [x])
      exact ⟨x :: rest, by rw [he, hr]; simp, List.Sublist.cons₂ x hs⟩

theorem merge_mem_of_mem (l acc : List Product) {p : Product} (hp : p ∈ acc) :
    p ∈ l.foldl pushUnlessPresent acc := by
  obtain ⟨rest, hr, _⟩ := merge_prefix_sublist l acc
  rw [hr]
  exact List.mem_append_left _ hp

theorem merge_ids_nodup (l acc : List Product) (h : (acc.map (fun p => p.id)).Nodup) :
    ((l.foldl pushUnlessPresent acc).map (fun p => p.id)).Nodup := by
  induction l generalizing acc with
  | nil => exact h
  | cons x xs ih =>
    rw [List.foldl_cons]
    rcases pushUnlessPresent_cases acc x with ⟨he, _⟩ | ⟨he, hno⟩
    · rw [he]; exact ih acc h
    · rw [he]
      apply ih
      rw [List.map_append, List.nodup_append]
      refine ⟨h, by simp, ?_⟩
      intro a ha hb
      simp only [List.map_cons, List.map_nil, List.mem_singleton] at hb
      obtain ⟨p, hp, rfl⟩ := List.mem_map.mp ha
      exact hno p hp hb

theorem merge_covers_id (l acc : List Product) {x : Product} (hx : x ∈ l) :
    ∃ p ∈ l.foldl pushUnlessPresent acc, p.id = x.id := by
  induction l generalizing acc with
  | nil => cases hx
  | cons y ys ih =>
    rw [List.foldl_cons]
    rcases List.mem_cons.mp hx with rfl | hys
    · rcases pushUnlessPresent_cases acc x with ⟨he, p, hp, hid⟩ | ⟨he, _⟩
      · exact ⟨p, merge_mem_of_mem ys _ (by rw [he]; exact hp), hid⟩
      · exact ⟨x, merge_mem_of_mem ys _ (by rw [he]; simp), rfl⟩
    · exact ih _ hys

theorem merge_mem_of_fresh (front back acc : List Product) (x : Product)
    (hacc : ∀ p ∈ acc, p.id ≠ x.id) (hfront : ∀ p ∈ front, p.id ≠ x.id) :
    x ∈ (front ++ x :: back).foldl pushUnlessPresent acc := by
  rw [List.foldl_append, List.foldl_cons]
  apply merge_mem_of_mem
  obtain ⟨rest, hr, hs⟩ := merge_prefix_sublist front acc
  have hno : ∀ p ∈ front.foldl pushUnlessPresent acc, p.id ≠ x.id := by
    intro p hp
    rw [hr, List.mem_append] at hp
    rcases hp with hp | hp
    · exact hacc p hp
    · exact hfront p (hs.subset hp)
  rcases pushUnlessPresent_cases (front.foldl pushUnlessPresent acc) x with
    ⟨_, p, hp, hid⟩ | ⟨he, _⟩
  · exact absurd hid (hno p hp)
  · rw [he]; simp

theorem mock_ids : mockBeautyProducts.map (fun p => p.id) = [1001, 1002, 1003] := rfl

theorem getBeautyProducts_ok (lc : Char → List Char) (allProducts : List Product) :
    getBeautyProducts lc (.ok allProducts)
      = .ok { products :=
                (beautyOrFallback lc allProducts).foldl pushUnlessPresent mockBeautyProducts
              total :=
                ((beautyOrFallback lc allProducts).foldl pushUnlessPresent
                  mockBeautyProducts).length } := rfl

theorem isBeautyProduct_of_description {lc : Char → List Char} (h : AsciiFaithful lc)
    (product : Product) {keyword : String} (hk : keyword ∈ BEAUTY_KEYWORDS)
    (hd : includes product.description keyword = true) :
    isBeautyProduct lc product = true := by
  rw [isBeautyProduct_iff]
  refine ⟨keyword, hk, ?_⟩
  obtain ⟨hascii, hlow, _⟩ := keyword_ascii_lower keyword hk
  have hfix : keyword.data.flatMap lc = keyword.data := by
    rw [flatMap_ascii h _ hascii, hlow]
  have hin := infix_flatMap lc ((includes_iff _ _).mp hd)
  rw [hfix] at hin
  obtain ⟨a, b, hab⟩ := hin
  refine ⟨product.title.data.flatMap lc ++ lc ' ' ++ a,
    b ++ (lc ' ' ++ product.category.data.flatMap lc), ?_⟩
  rw [← hab]
  simp

theorem merge_all_fresh (l acc : List Product)
    (h : ((acc ++ l).map (fun p => p.id)).Nodup) :
    l.foldl pushUnlessPresent acc = acc ++ l := by
  induction l generalizing acc with
  | nil => simp
  | cons x xs ih =>
    rw [List.foldl_cons]
    rcases pushUnlessPresent_cases acc x with ⟨_, p, hp, hid⟩ | ⟨he, _⟩
    · exfalso
      rw [List.map_append, List.nodup_append] at h
      exact h.2.2 (List.mem_map.mpr ⟨p, hp, hid⟩) (List.mem_map.mpr ⟨x, by simp, rfl⟩)
    · rw [he, ih (acc ++ [x]) (by simpa using h)]
      simp

/-! ## The catalog claims -/

/-- C15 as stated fails: the only upstream product mentions a serum in its description
but carries the id 1001 of a seed product, and the merged result does not hold it. -/
theorem serum_product_dropped_on_seed_id :
    serumClash ∈ [serumClash] ∧
    includes serumClash.description "serum" = true ∧
    ∃ r, getBeautyProducts asciiLower (.ok [serumClash]) = .ok r ∧
      serumClash ∉ r.products :=
  ⟨by simp, by decide, _, rfl, by decide⟩

/-- C15 (amended): a product `x` of the upstream list whose description contains
"serum" appears in the result of a successful `getBeautyProducts`, unless a seed product
(ids 1001-1003) or a beauty-classified product earlier in the list has its id. -/
theorem getBeautyProducts_keeps_serum (lc : Char → List Char) (h : AsciiFaithful lc)
    (front back : List Product) (x : Product)
    (hserum : includes x.description "serum" = true)
    (hseed : x.id ≠ 1001 ∧ x.id ≠ 1002 ∧ x.id ≠ 1003)
    (hfirst : ∀ y ∈ front, isBeautyProduct lc y = true → y.id ≠ x.id) :
    ∃ r, getBeautyProducts lc (.ok (front ++ x :: back)) = .ok r ∧ x ∈ r.products := by
  have hx : isBeautyProduct lc x = true :=
    @isBeautyProduct_of_description lc h x "serum" (by decide) hserum
  have hb : beautyOrFallback lc (front ++ x :: back)
      = front.filter (isBeautyProduct lc) ++ x :: back.filter (isBeautyProduct lc) := by
    simp [beautyOrFallback, List.filter_append, List.filter_cons, hx]
  refine ⟨_, getBeautyProducts_ok lc _, ?_⟩
  show x ∈ (beautyOrFallback lc (front ++ x :: back)).foldl pushUnlessPresent
    mockBeautyProducts
  rw [hb]
  apply merge_mem_of_fresh
  · intro p hp he
    have hid : p.id ∈ mockBeautyProducts.map (fun q => q.id) :=
      List.mem_map.mpr ⟨p, hp, rfl⟩
    rw [mock_ids, he] at hid
    simp only [List.mem_cons, List.mem_singleton, List.not_mem_nil, or_false] at hid
    rcases hid with h1 | h2 | h3
    · exact hseed.1 h1
    · exact hseed.2.1 h2
    · exact hseed.2.2 h3
  · intro p hp
    obtain ⟨hmem, hbeauty⟩ := List.mem_filter.mp hp
    exact hfirst p hmem hbeauty

/-- C15 (amended) at a concrete feed: a serum with id 5 after a shoe with id 4. -/
theorem getBeautyProducts_keeps_serum_witness :
    includes (feedProduct 5 "Night Oil" "a serum" "care").description "serum" = true ∧
    ∃ r, getBeautyProducts asciiLower
        (.ok ([feedProduct 4 "Shoe" "a shoe" "shoes"]
          ++ feedProduct 5 "Night Oil" "a serum" "care" :: [])) = .ok r ∧
      feedProduct 5 "Night Oil" "a serum" "care" ∈ r.products :=
  ⟨by decide,
    getBeautyProducts_keeps_serum asciiLower (fun _ _ => rfl)
      [feedProduct 4 "Shoe" "a shoe" "shoes"] []
      (feedProduct 5 "Night Oil" "a serum" "care") (by decide) (by decide) (by decide)⟩

/-- C16: `isBeautyProduct` holds exactly when some keyword occurs in the lowered title,
in the lowered description or in the lowered category taken by itself: the keywords hold
no space, so no occurrence in the joined text spans two fields. -/
theorem isBeautyProduct_iff_some_field (lc : Char → List Char) (h : AsciiFaithful lc)
    (product : Product) :
    isBeautyProduct lc product = true ↔
      ∃ keyword ∈ BEAUTY_KEYWORDS,
        includes (toLowerCase lc product.title) keyword = true ∨
        includes (toLowerCase lc product.description) keyword = true ∨
        includes (toLowerCase lc product.category) keyword = true := by
  have hsp : lc ' ' = [' '] := h ' ' (by decide)
  rw [isBeautyProduct_iff, hsp]
  simp only [includes_iff, toLowerCase, List.singleton_append]
  constructor
  · rintro ⟨keyword, hk, hin⟩
    have hno := (keyword_ascii_lower keyword hk).2.2
    refine ⟨keyword, hk, ?_⟩
    rcases infix_of_infix_separated hno hin with ht | hrest
    · exact Or.inl ht
    · rcases infix_of_infix_separated hno hrest with hd | hc
      · exact Or.inr (Or.inl hd)
      · exact Or.inr (Or.inr hc)
  · rintro ⟨keyword, hk, ht | hd | hc⟩
    · obtain ⟨a, b, hab⟩ := ht
      exact ⟨keyword, hk, a, b ++ ' ' :: (product.description.data.flatMap lc
        ++ ' ' :: product.category.data.flatMap lc), by rw [← hab]; simp⟩
    · obtain ⟨a, b, hab⟩ := hd
      exact ⟨keyword, hk, product.title.data.flatMap lc ++ ' ' :: a,
        b ++ ' ' :: product.category.data.flatMap lc, by rw [← hab]; simp⟩
    · obtain ⟨a, b, hab⟩ := hc
      exact ⟨keyword, hk, product.title.data.flatMap lc ++ ' ' ::
        (product.description.data.flatMap lc ++ ' ' :: a), b, by rw [← hab]; simp⟩

/-- C16 at a concrete product: "nail" would arise only across the title "Sea Sna" and
the description "il polish" if the fields were joined without a separator; the product is
not classified. -/
theorem isBeautyProduct_iff_some_field_witness :
    isBeautyProduct asciiLower (feedProduct 9 "Sea Sna" "il polish" "pets") = false ∧
    (isBeautyProduct asciiLower (feedProduct 9 "Sea Sna" "il polish" "pets") = true ↔
      ∃ keyword ∈ BEAUTY_KEYWORDS,
        includes (toLowerCase asciiLower (feedProduct 9 "Sea Sna" "il polish" "pets").title)
          keyword = true ∨
        includes (toLowerCase asciiLower
          (feedProduct 9 "Sea Sna" "il polish" "pets").description) keyword = true ∨
        includes (toLowerCase asciiLower
          (feedProduct 9 "Sea Sna" "il polish" "pets").category) keyword = true) :=
  ⟨by decide,
    isBeautyProduct_iff_some_field asciiLower (fun _ _ => rfl)
      (feedProduct 9 "Sea Sna" "il polish" "pets")⟩

/-- C17: for every upstream list, whatever ids it carries or repeats, the products of a
successful `getBeautyProducts` have pairwise distinct ids (and `total` is their
number). -/
theorem getBeautyProducts_ids_nodup (lc : Char → List Char) (allProducts : List Product) :
    ∃ r, getBeautyProducts lc (.ok allProducts) = .ok r ∧
      (r.products.map (fun p => p.id)).Nodup ∧ r.total = r.products.length := by
  refine ⟨_, getBeautyProducts_ok lc allProducts, ?_, rfl⟩
  exact merge_ids_nodup _ _ (by rw [mock_ids]; decide)

/-- C18: for every upstream list, the products of a successful `getBeautyProducts` begin
with the three seed products as authored, ids 1001, 1002, 1003 in that order, and every
returned product with one of these ids is the seed product itself. -/
theorem getBeautyProducts_seed_first (lc : Char → List Char) (allProducts : List Product) :
    ∃ r, getBeautyProducts lc (.ok allProducts) = .ok r ∧
      r.products.take 3 = mockBeautyProducts ∧
      (r.products.take 3).map (fun p => p.id) = [1001, 1002, 1003] ∧
      (∀ p ∈ r.products, p.id = 1001 ∨ p.id = 1002 ∨ p.id = 1003 →
        p ∈ mockBeautyProducts) := by
  obtain ⟨rest, hr, _⟩ :=
    merge_prefix_sublist (beautyOrFallback lc allProducts) mockBeautyProducts
  have hnodup := merge_ids_nodup (beautyOrFallback lc allProducts) mockBeautyProducts
    (by rw [mock_ids]; decide)
  have htake : ((beautyOrFallback lc allProducts).foldl pushUnlessPresent
      mockBeautyProducts).take 3 = mockBeautyProducts := by
    rw [hr]
    exact List.take_left' rfl
  refine ⟨_, getBeautyProducts_ok lc allProducts, htake, ?_, ?_⟩
  · show (((beautyOrFallback lc allProducts).foldl pushUnlessPresent
      mockBeautyProducts).take 3).map (fun p => p.id) = _
    rw [htake]
    rfl
  · intro p hp hid
    change p ∈ (beautyOrFallback lc allProducts).foldl pushUnlessPresent
      mockBeautyProducts at hp
    rw [hr, List.mem_append] at hp
    rcases hp with hp | hp
    · exact hp
    · exfalso
      rw [hr, List.map_append, List.nodup_append] at hnodup
      refine hnodup.2.2 ?_ (List.mem_map.mpr ⟨p, hp, rfl⟩)
      rw [mock_ids]
      simp only [List.mem_cons, List.mem_singleton, List.not_mem_nil, or_false]
      exact hid

/-- C19: when no upstream product is beauty-classified, a successful `getBeautyProducts`
returns the three seed products followed by relabelled entries of the first ten upstream
products, in upstream order (an entry is left out only when its id is already present,
and none is when all ids are distinct); every upstream product among the first ten has
an entry of its id; and a relabelled entry has category "beauty", the description
prefixed by "Premium beauty product: ", the title prefixed by "Beauty " unless it
contains "Essence", and every other field as fetched. -/
theorem getBeautyProducts_fallback (lc : Char → List Char) (allProducts : List Product)
    (hnone : ∀ p ∈ allProducts, isBeautyProduct lc p = false) :
    ∃ r rest, getBeautyProducts lc (.ok allProducts) = .ok r ∧
      r.products = mockBeautyProducts ++ rest ∧
      rest.Sublist ((allProducts.take 10).map relabel) ∧
      (∀ e ∈ rest, ∃ p ∈ allProducts, e = relabel p) ∧
      (∀ p ∈ allProducts.take 10, ∃ e ∈ r.products, e.id = p.id) ∧
      (((mockBeautyProducts ++ (allProducts.take 10).map relabel).map
          (fun p => p.id)).Nodup →
        rest = (allProducts.take 10).map relabel) ∧
      (∀ p : Product,
        (relabel p).category = "beauty" ∧
        (relabel p).description = "Premium beauty product: " ++ p.description ∧
        (relabel p).title
          = (if includes p.title "Essence" then p.title else "Beauty " ++ p.title) ∧
        (relabel p).id = p.id ∧ (relabel p).brand = p.brand ∧
        (relabel p).price = p.price ∧
        (relabel p).discountPercentage = p.discountPercentage ∧
        (relabel p).rating = p.rating ∧ (relabel p).stock = p.stock ∧
        (relabel p).thumbnail = p.thumbnail ∧ (relabel p).images = p.images ∧
        (relabel p).quantity = p.quantity) := by
  have hb : beautyOrFallback lc allProducts = (allProducts.take 10).map relabel := by
    have hf : allProducts.filter (isBeautyProduct lc) = [] :=
      List.filter_eq_nil_iff.mpr (fun p hp => by simp [hnone p hp])
    simp [beautyOrFallback, hf]
  obtain ⟨rest, hr, hs⟩ :=
    merge_prefix_sublist (beautyOrFallback lc allProducts) mockBeautyProducts
  refine ⟨_, rest, getBeautyProducts_ok lc allProducts, hr, ?_, ?_, ?_, ?_, ?_⟩
  · rw [← hb]; exact hs
  · intro e he
    have he2 := hs.subset he
    rw [hb] at he2
    obtain ⟨p, hp, rfl⟩ := List.mem_map.mp he2
    exact ⟨p, List.mem_of_mem_take hp, rfl⟩
  · intro p hp
    have hmem : relabel p ∈ beautyOrFallback lc allProducts := by
      rw [hb]; exact List.mem_map.mpr ⟨p, hp, rfl⟩
    obtain ⟨e, he, hid⟩ := merge_covers_id _ mockBeautyProducts hmem
    exact ⟨e, he, hid⟩
  · intro hd
    rw [← hb] at hd
    have hall := merge_all_fresh _ _ hd
    rw [hall] at hr
    rw [← hb]
    exact (List.append_cancel_left hr).symm
  · intro p
    exact ⟨rfl, rfl, rfl, rfl, rfl, rfl, rfl, rfl, rfl, rfl, rfl, rfl⟩

/-- C19 at a concrete feed: one shoe, no keyword anywhere. -/
theorem getBeautyProducts_fallback_witness :
    (∀ p ∈ [feedProduct 5 "Shoe" "a shoe" "shoes"], isBeautyProduct asciiLower p = false) ∧
    ∃ r rest,
      getBeautyProducts asciiLower (.ok [feedProduct 5 "Shoe" "a shoe" "shoes"]) = .ok r ∧
      r.products = mockBeautyProducts ++ rest ∧
      rest.Sublist [feedProduct 5 "Beauty Shoe" "Premium beauty product: a shoe" "beauty"] :=
  have hnone : ∀ p ∈ [feedProduct 5 "Shoe" "a shoe" "shoes"],
      isBeautyProduct asciiLower p = false := by decide
  ⟨hnone,
    match getBeautyProducts_fallback asciiLower [feedProduct 5 "Shoe" "a shoe" "shoes"]
      hnone with
    | ⟨r, rest, h1, h2, h3, _⟩ => ⟨r, rest, h1, h2, h3⟩⟩

/-- C20: when the lowered query contains a beauty keyword (as "red lipstick" does),
`searchProducts` returns the upstream results as they are; otherwise (as for "running
shoes") it returns the results that `isBeautyProduct` classifies, in upstream order; in
both cases `total` is the number of returned products. -/
theorem searchProducts_results (lc : Char → List Char) (h : AsciiFaithful lc)
    (query : String) (searchResults : List Product) :
    ((∃ keyword ∈ BEAUTY_KEYWORDS, includes (toLowerCase lc query) keyword = true) →
      searchProducts lc query (.ok searchResults)
        = .ok { products := searchResults, total := searchResults.length }) ∧
    ((∀ keyword ∈ BEAUTY_KEYWORDS, includes (toLowerCase lc query) keyword = false) →
      searchProducts lc query (.ok searchResults)
        = .ok { products := searchResults.filter (isBeautyProduct lc)
                total := (searchResults.filter (isBeautyProduct lc)).length }) ∧
    (∃ r, searchProducts lc query (.ok searchResults) = .ok r ∧
      r.total = r.products.length) ∧
    searchProducts lc "red lipstick" (.ok searchResults)
      = .ok { products := searchResults, total := searchResults.length } ∧
    searchProducts lc "running shoes" (.ok searchResults)
      = .ok { products := searchResults.filter (isBeautyProduct lc)
              total := (searchResults.filter (isBeautyProduct lc)).length } := by
  have hyes : ∀ q : String,
      BEAUTY_KEYWORDS.any (fun keyword => includes (toLowerCase lc q) keyword) = true →
      searchProducts lc q (.ok searchResults)
        = .ok { products := searchResults, total := searchResults.length } := by
    intro q hq
    simp [searchProducts, hq]
  have hno : ∀ q : String,
      BEAUTY_KEYWORDS.any (fun keyword => includes (toLowerCase lc q) keyword) = false →
      searchProducts lc q (.ok searchResults)
        = .ok { products := searchResults.filter (isBeautyProduct lc)
                total := (searchResults.filter (isBeautyProduct lc)).length } := by
    intro q hq
    simp [searchProducts, hq]
  refine ⟨?_, ?_, ?_, ?_, ?_⟩
  · intro hk
    exact hyes query (List.any_eq_true.mpr hk)
  · intro hk
    apply hno query
    rw [List.any_eq_false]
    intro keyword hmem
    simp [hk keyword hmem]
  · cases hq : BEAUTY_KEYWORDS.any
        (fun keyword => includes (toLowerCase lc query) keyword) with
    | true => exact ⟨_, hyes query hq, rfl⟩
    | false => exact ⟨_, hno query hq, rfl⟩
  · apply hyes
    rw [toLowerCase_ascii h _ (by decide)]
    decide
  · apply hno
    rw [toLowerCase_ascii h _ (by decide)]
    decide

/-- C20 at a concrete result list: a lipstick query keeps the shoe, a shoe query drops
it and keeps the serum. -/
theorem searchProducts_results_witness :
    searchProducts asciiLower "Red LIPSTICK"
        (.ok [feedProduct 4 "Shoe" "a shoe" "shoes", feedProduct 5 "Night Oil" "a serum" "care"])
      = .ok { products :=
                [feedProduct 4 "Shoe" "a shoe" "shoes",
                 feedProduct 5 "Night Oil" "a serum" "care"]
              total := 2 } ∧
    searchProducts asciiLower "running shoes"
        (.ok [feedProduct 4 "Shoe" "a shoe" "shoes", feedProduct 5 "Night Oil" "a serum" "care"])
      = .ok { products := [feedProduct 5 "Night Oil" "a serum" "care"], total := 1 } :=
  ⟨(searchProducts_results asciiLower (fun _ _ => rfl) "Red LIPSTICK"
      [feedProduct 4 "Shoe" "a shoe" "shoes", feedProduct 5 "Night Oil" "a serum" "care"]).1
      ⟨"lipstick", by decide, by decide⟩,
    (searchProducts_results asciiLower (fun _ _ => rfl) "running shoes"
      [feedProduct 4 "Shoe" "a shoe" "shoes",
       feedProduct 5 "Night Oil" "a serum" "care"]).2.2.2.2⟩

/-! ## Failure messages, session restore, clearCart -/

/-- C21: when the upstream request fails, whatever the error, each catalog call fails
with its own fixed message and resolves to nothing; when the request succeeds,
`getProduct` and `getCategories` return the response body unchanged. -/
theorem catalog_failure_messages (lc : Char → List Char) (query e : String)
    (α β : Type) (product : α) (categories : β) :
    getBeautyProducts lc (.error e) = .error "Failed to fetch products. Please try again." ∧
    searchProducts lc query (.error e) = .error "Search failed. Please try again." ∧
    (getProduct (.error e) : Except String α) = .error "Failed to fetch product details." ∧
    (getCategories (.error e) : Except String β) = .error "Failed to fetch categories." ∧
    getProduct (.ok product) = .ok product ∧
    getCategories (.ok categories) = .ok categories :=
  ⟨rfl, rfl, rfl, rfl, rfl, rfl⟩

/-- C25: on start, a rejected storage read, an empty slot and a slot holding text that
does not parse all leave the store in its initial state (no user, not authenticated, no
error), and the load never throws; a stored user record becomes the current user and the
store is authenticated, the rest of the state being as initially. -/
theorem loadUserData_on_start (slot : Option StoredText) (raw : String) (user : User) :
    loadUserData false (initialStore slot) = initialStore slot ∧
    loadUserData true (initialStore none) = initialStore none ∧
    loadUserData true (initialStore (some (.garbage raw)))
      = initialStore (some (.garbage raw)) ∧
    (initialStore slot).state.user = none ∧
    (initialStore slot).state.isAuthenticated = false ∧
    (initialStore slot).state.error = none ∧
    (loadUserData true (initialStore (some (.json (some user))))).state
      = { initialState with user := some user, isAuthenticated := true } :=
  ⟨rfl, rfl, rfl, rfl, rfl, rfl, rfl⟩

/-- C26: `clearCart()` yields the store with an empty cart and with the user, the
authentication flag, the products, the loading flag and the error of the store before. -/
theorem clearCart_frame (s : Store) :
    clearCart s = withCart s [] ∧
    (clearCart s).state.cart = [] ∧
    (clearCart s).state.user = s.state.user ∧
    (clearCart s).state.isAuthenticated = s.state.isAuthenticated ∧
    (clearCart s).state.products = s.state.products ∧
    (clearCart s).state.loading = s.state.loading ∧
    (clearCart s).state.error = s.state.error ∧
    (clearCart s).userData = s.userData :=
  ⟨rfl, rfl, rfl, rfl, rfl, rfl, rfl, rfl⟩

theorem isBeautyProduct_of_title {lc : Char → List Char} (product : Product)
    {word keyword : String} (hk : keyword ∈ BEAUTY_KEYWORDS)
    (hw : word.data.flatMap lc = keyword.data)
    (ht : includes product.title word = true) :
    isBeautyProduct lc product = true := by
  rw [isBeautyProduct_iff]
  refine ⟨keyword, hk, ?_⟩
  have hin := infix_flatMap lc ((includes_iff _ _).mp ht)
  rw [hw] at hin
  obtain ⟨a, b, hab⟩ := hin
  refine ⟨a, b ++ (lc ' ' ++ (product.description.data.flatMap lc
    ++ (lc ' ' ++ product.category.data.flatMap lc))), ?_⟩
  rw [← hab]
  simp

/-- C27: when no upstream product is beauty-classified (the fallback branch), no upstream
title contains "Essence", since its lowered form is a keyword; so every relabelled entry
has the title "Beauty " followed by the original title. -/
theorem fallback_title_always_relabelled (lc : Char → List Char) (h : AsciiFaithful lc)
    (allProducts : List Product)
    (hnone : ∀ p ∈ allProducts, isBeautyProduct lc p = false) :
    (∀ p ∈ allProducts, includes p.title "Essence" = false) ∧
    (∀ p ∈ allProducts, (relabel p).title = "Beauty " ++ p.title) ∧
    (∀ e ∈ beautyOrFallback lc allProducts,
      ∃ p ∈ allProducts, e = relabel p ∧ e.title = "Beauty " ++ p.title) := by
  have hw : "Essence".data.flatMap lc = "essence".data := by
    rw [flatMap_ascii h _ (by decide)]
    decide
  have hno : ∀ p ∈ allProducts, includes p.title "Essence" = false := by
    intro p hp
    cases ht : includes p.title "Essence" with
    | false => rfl
    | true =>
      have hb := @isBeautyProduct_of_title lc p "Essence" "essence" (by decide) hw ht
      rw [hnone p hp] at hb
      cases hb
  have htitle : ∀ p ∈ allProducts, (relabel p).title = "Beauty " ++ p.title := by
    intro p hp
    simp [relabel, hno p hp]
  refine ⟨hno, htitle, ?_⟩
  intro e he
  have hf : allProducts.filter (isBeautyProduct lc) = [] :=
    List.filter_eq_nil_iff.mpr (fun p hp => by simp [hnone p hp])
  have hb : beautyOrFallback lc allProducts = (allProducts.take 10).map relabel := by
    simp [beautyOrFallback, hf]
  rw [hb] at he
  obtain ⟨p, hp, rfl⟩ := List.mem_map.mp he
  exact ⟨p, List.mem_of_mem_take hp, rfl, htitle p (List.mem_of_mem_take hp)⟩

/-- C27 at a concrete feed: one shoe, which no keyword classifies. -/
theorem fallback_title_always_relabelled_witness :
    (∀ p ∈ [feedProduct 5 "Shoe" "a shoe" "shoes"], isBeautyProduct asciiLower p = false) ∧
    (∀ p ∈ [feedProduct 5 "Shoe" "a shoe" "shoes"], includes p.title "Essence" = false) :=
  have hnone : ∀ p ∈ [feedProduct 5 "Shoe" "a shoe" "shoes"],
      isBeautyProduct asciiLower p = false := by decide
  ⟨hnone,
    (fallback_title_always_relabelled asciiLower (fun _ _ => rfl)
      [feedProduct 5 "Shoe" "a shoe" "shoes"] hnone).1⟩

/-! ## Lemmas on `split`, `join` and `trim` -/

theorem splitChars_fst (sep : Char) (l : List Char) :
    (splitChars sep l).1 = l.takeWhile (fun c => c != sep) := by
  induction l with
  | nil => rfl
  | cons c cs ih =>
    by_cases hc : c = sep
    · simp [splitChars, hc]
    · simp [splitChars, hc, ih]

theorem splitChars_fst_no_sep (sep : Char) (l : List Char) :
    sep ∉ (splitChars sep l).1 := by
  induction l with
  | nil => simp [splitChars]
  | cons c cs ih =>
    by_cases hc : c = sep
    · simp [splitChars, hc]
    · simp only [splitChars, if_neg hc, List.mem_cons, not_or]
      exact ⟨fun he => hc he.symm, ih⟩

theorem splitChars_snd_no_sep (sep : Char) (l : List Char) :
    ∀ t ∈ (splitChars sep l).2, sep ∉ t := by
  induction l with
  | nil => simp [splitChars]
  | cons c cs ih =>
    by_cases hc : c = sep
    · simp only [splitChars, if_pos hc, List.mem_cons]
      rintro t (rfl | ht)
      · exact splitChars_fst_no_sep sep cs
      · exact ih t ht
    · simp only [splitChars, if_neg hc]
      exact ih

theorem joinChars_cons_cons (sep c : Char) (f : List Char) (r : List (List Char)) :
    joinChars sep ((c :: f) :: r) = c :: joinChars sep (f :: r) := by
  cases r <;> simp [joinChars]

theorem joinChars_splitChars (sep : Char) (l : List Char) :
    joinChars sep ((splitChars sep l).1 :: (splitChars sep l).2) = l := by
  induction l with
  | nil => simp [splitChars, joinChars]
  | cons c cs ih =>
    by_cases hc : c = sep
    · subst hc
      simp [splitChars, joinChars, ih]
    · simp only [splitChars, if_neg hc, joinChars_cons_cons, ih]

theorem splitChars_snd_eq_nil (sep : Char) (l : List Char) :
    (splitChars sep l).2 = [] ↔ sep ∉ l := by
  induction l with
  | nil => simp [splitChars]
  | cons c cs ih =>
    by_cases hc : c = sep
    · simp [splitChars, hc]
    · simp only [splitChars, if_neg hc, ih, List.mem_cons, not_or]
      exact ⟨fun h => ⟨fun he => hc he.symm, h⟩, fun h => h.2⟩

theorem joinChars_eq_nil (sep : Char) (r : List (List Char)) :
    joinChars sep r = [] ↔ r = [] ∨ r = [[]] := by
  match r with
  | [] => simp [joinChars]
  | [t] => simp [joinChars]
  | t :: u :: ts => simp [joinChars]

theorem dropWhile_head_false {p : Char → Bool} :
    ∀ (l : List Char) {a : Char} {r : List Char}, l.dropWhile p = a :: r → p a = false := by
  intro l
  induction l with
  | nil => intro a r h; simp at h
  | cons c cs ih =>
    intro a r h
    rw [List.dropWhile_cons] at h
    split at h
    · exact ih h
    · rename_i hc
      have hca : c = a := (List.cons.inj h).1
      rw [← hca]
      simpa using hc

theorem trimChars_not_end_space (l u : List Char) : trimChars l ≠ u ++ [' '] := by
  intro h
  have hrev : ((l.dropWhile isWhiteSpace).reverse.dropWhile isWhiteSpace)
      = ' ' :: u.reverse := by
    have := congrArg List.reverse h
    simpa [trimChars] using this
  have hsp := dropWhile_head_false _ hrev
  revert hsp
  decide

theorem string_eq_empty_iff (s : String) : s = "" ↔ s.data = [] := by
  constructor
  · intro h; rw [h]
  · intro h
    cases s
    simp only at h
    rw [h]

theorem join_data (parts : List (List Char)) (sep : Char) :
    (join (parts.map (fun t => (⟨t⟩ : String))) sep).data = joinChars sep parts := by
  simp only [join, List.map_map]
  congr 1
  conv_rhs => rw [← List.map_id parts]
  apply List.map_congr_left
  intro t _
  rfl

theorem splitName_fst_data (fullName : String) :
    (splitName fullName).1.data = (splitChars ' ' (trimChars fullName.data)).1 := rfl

theorem splitName_snd_data (fullName : String) :
    (splitName fullName).2.data
      = joinChars ' ' (splitChars ' ' (trimChars fullName.data)).2 := by
  have hj : (join (split (trim fullName) ' ').2 ' ').data
      = joinChars ' ' (splitChars ' ' (trimChars fullName.data)).2 :=
    join_data _ _
  simp only [splitName]
  split
  · rename_i he
    rw [string_eq_empty_iff] at he
    rw [← hj, he]
  · exact hj

/-! ## The mock authentication claims -/

theorem splitName_snd_eq_join (fullName : String) :
    (splitName fullName).2 = join (split (trim fullName) ' ').2 ' ' := by
  simp only [splitName]
  split
  · rename_i he
    exact he.symm
  · rfl

theorem register_ok {now : Nat} {userData : RegisterData} {u : User}
    (hok : apiService.register now userData = .ok u) :
    ∃ fullName email password,
      userData.fullName = some fullName ∧ userData.email = some email ∧
      userData.password = some password ∧ userData.confirmPassword = some password ∧
      fullName ≠ "" ∧ email ≠ "" ∧ password ≠ "" ∧ 6 ≤ jsLength password ∧
      u = { id := now
            firstName := (splitName fullName).1
            lastName := (splitName fullName).2
            email := email
            username := (split email '@').1
            image := "https://i.pravatar.cc/150?u=" ++ email
            token := "mock-jwt-token-" ++ toString now } := by
  rcases userData with ⟨_ | fn, _ | em, _ | pw, _ | cp⟩ <;>
    simp only [apiService.register] at hok <;> try (cases hok)
  split_ifs at hok with h1 h2 h3
  · simp only [not_or] at h1
    simp only [ne_eq, not_not] at h2
    subst h2
    injection hok with hu
    exact ⟨fn, em, pw, rfl, rfl, rfl, rfl, h1.1, h1.2.1, h1.2.2.1, not_lt.mp h3, hu.symm⟩

/-- C22: the mock `login(email, password)` fails with 'Email and password are required'
exactly when the email or the password is missing or empty, with 'Password must be at
least 6 characters' exactly when both are present and the password's `length` is below
6, and fails in no other case; otherwise it returns a user with the given email whose
username is the email up to its first '@'. -/
theorem login_validation (now : Nat) (email password : Option String) :
    (apiService.login now email password = .error "Email and password are required"
      ↔ truthy email = false ∨ truthy password = false) ∧
    (apiService.login now email password
        = .error "Password must be at least 6 characters"
      ↔ truthy email = true ∧ ∃ pw, password = some pw ∧ pw ≠ "" ∧ jsLength pw < 6) ∧
    ((∃ e, apiService.login now email password = .error e)
      ↔ truthy email = false ∨ truthy password = false
          ∨ ∃ pw, password = some pw ∧ jsLength pw < 6) ∧
    (∀ em pw, email = some em → password = some pw → em ≠ "" → pw ≠ "" →
      6 ≤ jsLength pw →
      ∃ u, apiService.login now email password = .ok u ∧ u.email = em ∧
        u.username = (split em '@').1 ∧
        u.username.data = em.data.takeWhile (fun c => c != '@')) := by
  rcases email with _ | em <;> rcases password with _ | pw
  · simp [apiService.login, truthy]
  · simp [apiService.login, truthy]
  · simp [apiService.login, truthy]
  · by_cases h1 : em = "" <;> by_cases h2 : pw = "" <;> by_cases h3 : jsLength pw < 6 <;>
      simp [apiService.login, truthy, h1, h2, h3, split, splitChars_fst]

/-- C24: `register(userData)` fails with 'All fields are required' exactly when one of
the four fields is missing or empty, else with 'Passwords do not match' exactly when
password and confirmation differ, else with 'Password must be at least 6 characters'
exactly when the password's `length` is below 6, and fails in no other case; two
different passwords shorter than 6 report 'Passwords do not match'. -/
theorem register_validation (now : Nat) (userData : RegisterData) :
    (apiService.register now userData = .error "All fields are required"
      ↔ truthy userData.fullName = false ∨ truthy userData.email = false
          ∨ truthy userData.password = false ∨ truthy userData.confirmPassword = false) ∧
    (apiService.register now userData = .error "Passwords do not match"
      ↔ truthy userData.fullName = true ∧ truthy userData.email = true
          ∧ truthy userData.password = true ∧ truthy userData.confirmPassword = true
          ∧ userData.password ≠ userData.confirmPassword) ∧
    (apiService.register now userData = .error "Password must be at least 6 characters"
      ↔ truthy userData.fullName = true ∧ truthy userData.email = true
          ∧ truthy userData.password = true
          ∧ userData.password = userData.confirmPassword
          ∧ ∃ pw, userData.password = some pw ∧ jsLength pw < 6) ∧
    ((∃ e, apiService.register now userData = .error e)
      ↔ truthy userData.fullName = false ∨ truthy userData.email = false
          ∨ truthy userData.password = false ∨ truthy userData.confirmPassword = false
          ∨ userData.password ≠ userData.confirmPassword
          ∨ ∃ pw, userData.password = some pw ∧ jsLength pw < 6) ∧
    apiService.register now
        { fullName := some "Ana", email := some "a@b.c", password := some "abc"
          confirmPassword := some "abd" }
      = .error "Passwords do not match" := by
  refine ⟨?_, ?_, ?_, ?_, rfl⟩ <;>
    rcases userData with ⟨_ | fn, _ | em, _ | pw, _ | cp⟩ <;>
    try (simp [apiService.register, truthy]; done)
  all_goals
    by_cases hfn : fn = "" <;> by_cases hem : em = "" <;> by_cases hpw : pw = "" <;>
      by_cases hcp : cp = "" <;> rcases eq_or_ne pw cp with heq | heq <;>
      by_cases hlen : jsLength pw < 6 <;>
      simp_all [apiService.register, truthy] <;>
      rw [if_neg (Nat.not_lt.mpr hlen)] <;> simp <;> first | done | omega

theorem map_data_mk (parts : List (List Char)) :
    (parts.map (fun t => (⟨t⟩ : String))).map (fun t => t.data) = parts := by
  rw [List.map_map]
  conv_rhs => rw [← List.map_id parts]
  apply List.map_congr_left
  intro t _
  rfl

/-- C23: for a full name that `register` accepts, `firstName` is the first token of the
trimmed full name split at spaces and `lastName` is the other tokens joined by single
spaces, the empty string when there is none; the tokens hold no space and, joined by
spaces, give back the trimmed name. "Ana" gives ("Ana", "") and "Ana Maria Lopez" gives
("Ana", "Maria Lopez"). -/
theorem register_name_split (now : Nat) (userData : RegisterData) (u : User)
    (hok : apiService.register now userData = .ok u) :
    (∃ fullName, userData.fullName = some fullName ∧
      u.firstName = (split (trim fullName) ' ').1 ∧
      u.lastName = join (split (trim fullName) ' ').2 ' ' ∧
      ((split (trim fullName) ' ').2 = [] → u.lastName = "") ∧
      u.firstName.data = (trim fullName).data.takeWhile (fun c => c != ' ') ∧
      ' ' ∉ u.firstName.data ∧
      (∀ t ∈ (split (trim fullName) ' ').2, ' ' ∉ t.data) ∧
      joinChars ' ' (u.firstName.data ::
          (split (trim fullName) ' ').2.map (fun t => t.data))
        = (trim fullName).data) ∧
    splitName "Ana" = ("Ana", "") ∧
    splitName "Ana Maria Lopez" = ("Ana", "Maria Lopez") := by
  obtain ⟨fn, em, pw, h1, _, _, _, _, _, _, _, hu⟩ := register_ok hok
  subst hu
  refine ⟨⟨fn, h1, rfl, splitName_snd_eq_join fn, ?_, ?_, ?_, ?_, ?_⟩, by decide, by decide⟩
  · intro h
    show (splitName fn).2 = ""
    rw [splitName_snd_eq_join, h]
    rfl
  · exact splitChars_fst ' ' (trimChars fn.data)
  · exact splitChars_fst_no_sep ' ' (trimChars fn.data)
  · intro t ht
    obtain ⟨t0, ht0, rfl⟩ := List.mem_map.mp ht
    exact splitChars_snd_no_sep ' ' (trimChars fn.data) t0 ht0
  · show joinChars ' ' ((splitChars ' ' (trimChars fn.data)).1 ::
      ((splitChars ' ' (trimChars fn.data)).2.map (fun t => (⟨t⟩ : String))).map
        (fun t => t.data)) = trimChars fn.data
    rw [map_data_mk]
    exact joinChars_splitChars ' ' (trimChars fn.data)

/-- C23 at a concrete form: "Ana Maria Lopez" registered at time 7. -/
theorem register_name_split_witness :
    apiService.register 7 sampleRegistration = .ok sampleRegistered ∧
    ∃ fullName, sampleRegistration.fullName = some fullName ∧
      sampleRegistered.firstName = (split (trim fullName) ' ').1 ∧
      sampleRegistered.lastName = join (split (trim fullName) ' ').2 ' ' :=
  ⟨rfl,
    match register_name_split 7 sampleRegistration sampleRegistered rfl with
    | ⟨⟨fullName, h1, h2, h3, _⟩, _⟩ => ⟨fullName, h1, h2, h3⟩⟩

/-- C29: for every full name, the `firstName` of the name split holds no space; the
trimmed full name is `firstName` when `lastName` is empty and `firstName + ' ' +
lastName` otherwise; and `lastName` is empty exactly when the trimmed full name holds no
space. -/
theorem splitName_reconstructs (fullName : String) :
    ' ' ∉ (splitName fullName).1.data ∧
    ((splitName fullName).2 = "" → trim fullName = (splitName fullName).1) ∧
    ((splitName fullName).2 ≠ "" →
      trim fullName = (splitName fullName).1 ++ " " ++ (splitName fullName).2) ∧
    ((splitName fullName).2 = "" ↔ ' ' ∉ (trim fullName).data) := by
  have hjoin := joinChars_splitChars ' ' (trimChars fullName.data)
  have hlast := splitName_snd_data fullName
  have hfirst := splitName_fst_data fullName
  have hkey : (splitName fullName).2 = ""
      ↔ (splitChars ' ' (trimChars fullName.data)).2 = [] := by
    rw [string_eq_empty_iff, hlast, joinChars_eq_nil]
    constructor
    · rintro (h | h)
      · exact h
      · exfalso
        rw [h] at hjoin
        simp only [joinChars] at hjoin
        exact trimChars_not_end_space fullName.data _ hjoin.symm
    · intro h
      exact Or.inl h
  refine ⟨?_, ?_, ?_, ?_⟩
  · rw [hfirst]
    exact splitChars_fst_no_sep ' ' _
  · intro h
    have hr := hkey.mp h
    rw [hr] at hjoin
    simp only [joinChars] at hjoin
    apply String.ext
    show trimChars fullName.data = (splitName fullName).1.data
    rw [hfirst, hjoin]
  · intro h
    have hr : (splitChars ' ' (trimChars fullName.data)).2 ≠ [] := fun hr => h (hkey.mpr hr)
    apply String.ext
    show trimChars fullName.data
      = ((splitName fullName).1 ++ " " ++ (splitName fullName).2).data
    rw [String.data_append, String.data_append, hfirst, hlast]
    cases hs : (splitChars ' ' (trimChars fullName.data)).2 with
    | nil => exact absurd hs hr
    | cons t ts =>
      rw [hs] at hjoin
      simp only [joinChars] at hjoin
      show trimChars fullName.data
        = (splitChars ' ' (trimChars fullName.data)).1 ++ [' '] ++ joinChars ' ' (t :: ts)
      exact hjoin.symm.trans (by simp)
  · rw [hkey]
    exact splitChars_snd_eq_nil ' ' (trimChars fullName.data)

/-! ## Repeated `addToCart` -/

theorem count_addToCart (s : Store) (p : Product) (hu : UniqueIds s.state.cart) :
    getCartItemsCount (addToCart p s) = getCartItemsCount s + 1 := by
  by_cases hmem : ∃ item ∈ s.state.cart, item.id = p.id
  · rw [getCartItemsCount_eq, getCartItemsCount_eq, addToCart_cart_of_mem hmem]
    exact sum_quantity_increment _ _ hmem hu
  · have hno : ∀ item ∈ s.state.cart, item.id ≠ p.id :=
      fun item hi he => hmem ⟨item, hi, he⟩
    rw [getCartItemsCount_eq, getCartItemsCount_eq, addToCart_cart_of_not_mem hno]
    simp [lineOf]

theorem addToCart_uniqueIds (s : Store) (p : Product) (hu : UniqueIds s.state.cart) :
    UniqueIds (addToCart p s).state.cart :=
  appReducer_uniqueIds s.state (.ADD_TO_CART p) hu

theorem handleAddToBag_uniqueIds (p : Product) (n : Nat) (s : Store)
    (hu : UniqueIds s.state.cart) : UniqueIds (handleAddToBag p n s).state.cart := by
  induction n generalizing s with
  | zero => exact hu
  | succ n ih => exact ih _ (addToCart_uniqueIds s p hu)

theorem handleAddToBag_count (p : Product) (n : Nat) (s : Store)
    (hu : UniqueIds s.state.cart) :
    getCartItemsCount (handleAddToBag p n s) = getCartItemsCount s + n := by
  induction n generalizing s with
  | zero => simp [handleAddToBag]
  | succ n ih =>
    show getCartItemsCount (handleAddToBag p n (addToCart p s)) = _
    rw [ih _ (addToCart_uniqueIds s p hu), count_addToCart s p hu]
    push_cast
    ring

theorem handleAddToBag_present (p : Product) (n : Nat) (s : Store)
    (hmem : ∃ item ∈ s.state.cart, item.id = p.id) :
    (handleAddToBag p n s).state.cart
      = s.state.cart.map (fun item =>
          if item.id = p.id then { item with quantity := item.quantity + (n : Int) }
          else item) := by
  induction n generalizing s with
  | zero =>
    show s.state.cart = _
    conv_lhs => rw [← List.map_id s.state.cart]
    apply List.map_congr_left
    intro item _
    split_ifs <;> simp
  | succ n ih =>
    show (handleAddToBag p n (addToCart p s)).state.cart = _
    have hc := addToCart_cart_of_mem hmem
    have hmem2 : ∃ item ∈ (addToCart p s).state.cart, item.id = p.id := by
      obtain ⟨item, hi, he⟩ := hmem
      rw [hc]
      refine ⟨_, List.mem_map.mpr ⟨item, hi, rfl⟩, ?_⟩
      simp [he]
    rw [ih _ hmem2, hc, List.map_map]
    apply List.map_congr_left
    intro item _
    simp only [Function.comp]
    by_cases he : item.id = p.id
    · simp only [he, if_true]
      congr 1
      push_cast
      ring
    · simp only [he, if_false]

theorem filter_id_length_one (cart : List CartLine) (k : Int) (hu : UniqueIds cart)
    (hmem : ∃ item ∈ cart, item.id = k) :
    (cart.filter (fun item => item.id == k)).length = 1 := by
  induction cart with
  | nil => simp at hmem
  | cons x xs ih =>
    unfold UniqueIds at hu
    rw [List.map_cons, List.nodup_cons] at hu
    by_cases hk : x.id = k
    · have hnone : xs.filter (fun item => item.id == k) = [] := by
        apply List.filter_eq_nil_iff.mpr
        intro item hi he
        have hid : item.id = k := by simpa using he
        exact hu.1 (List.mem_map.mpr ⟨item, hi, by rw [hid, hk]⟩)
      rw [List.filter_cons, if_pos (by simpa using hk), hnone]
      rfl
    · have hmem2 : ∃ item ∈ xs, item.id = k := by
        obtain ⟨item, hi, he⟩ := hmem
        rcases List.mem_cons.mp hi with rfl | hi
        · exact absurd he hk
        · exact ⟨item, hi, he⟩
      rw [List.filter_cons, if_neg (by simpa using hk)]
      exact ih hu.2 hmem2

/-- C28: with at most one line per id in the cart and `n >= 1`, `n` calls of
`addToCart(p)` in a row leave exactly one line with id `p.id`: the new line with quantity
`n` at the end when `p` was absent, the old line with its quantity raised by `n`
otherwise; every line of another id stays at its index as it was, and
`getCartItemsCount()` grows by exactly `n`. -/
theorem handleAddToBag_quantity (s : Store) (p : Product) (n : Nat)
    (hn : 1 ≤ n) (hu : UniqueIds s.state.cart) :
    ((handleAddToBag p n s).state.cart.filter (fun item => item.id == p.id)).length = 1 ∧
    ((∀ item ∈ s.state.cart, item.id ≠ p.id) →
      (handleAddToBag p n s).state.cart = s.state.cart ++ [lineOf p n]) ∧
    ((∃ item ∈ s.state.cart, item.id = p.id) →
      (handleAddToBag p n s).state.cart
        = s.state.cart.map (fun item =>
            if item.id = p.id then { item with quantity := item.quantity + (n : Int) }
            else item)) ∧
    (∀ (i : Nat) (item : CartLine), s.state.cart[i]? = some item → item.id ≠ p.id →
      (handleAddToBag p n s).state.cart[i]? = some item) ∧
    getCartItemsCount (handleAddToBag p n s) = getCartItemsCount s + n := by
  have habsent : (∀ item ∈ s.state.cart, item.id ≠ p.id) →
      (handleAddToBag p n s).state.cart = s.state.cart ++ [lineOf p n] := by
    intro hno
    obtain ⟨m, rfl⟩ : ∃ m, n = m + 1 := ⟨n - 1, by omega⟩
    have h1 := addToCart_cart_of_not_mem hno
    have hmem : ∃ item ∈ (addToCart p s).state.cart, item.id = p.id :=
      ⟨lineOf p 1, by rw [h1]; simp, rfl⟩
    show (handleAddToBag p m (addToCart p s)).state.cart = _
    rw [handleAddToBag_present p m _ hmem, h1, List.map_append,
      map_setQuantity_of_absent s.state.cart p.id (fun item => item.quantity + (m : Int)) hno]
    simp only [List.map_cons, List.map_nil]
    congr 2
    simp only [lineOf, if_true]
    congr 1
    push_cast
    ring
  have hpresent := handleAddToBag_present p n s
  refine ⟨?_, habsent, hpresent, ?_, handleAddToBag_count p n s hu⟩
  · apply filter_id_length_one _ _ (handleAddToBag_uniqueIds p n s hu)
    by_cases hmem : ∃ item ∈ s.state.cart, item.id = p.id
    · obtain ⟨item, hi, he⟩ := hmem
      rw [hpresent ⟨item, hi, he⟩]
      refine ⟨_, List.mem_map.mpr ⟨item, hi, rfl⟩, ?_⟩
      simp [he]
    · rw [habsent (fun item hi he => hmem ⟨item, hi, he⟩)]
      exact ⟨lineOf p n, by simp, rfl⟩
  · intro i item hi he
    by_cases hmem : ∃ line ∈ s.state.cart, line.id = p.id
    · rw [hpresent hmem, List.getElem?_map, hi]
      simp [he]
    · rw [habsent (fun line hl hid => hmem ⟨line, hl, hid⟩)]
      have hlt : i < s.state.cart.length := (List.getElem?_eq_some_iff.mp hi).1
      rw [List.getElem?_append_left hlt, hi]

/-- C28 at a concrete store: three calls for product 7, held with quantity 2. -/
theorem handleAddToBag_quantity_witness :
    1 ≤ 3 ∧ UniqueIds sampleStore.state.cart ∧
    getCartItemsCount (handleAddToBag (sampleProduct 7 5) 3 sampleStore)
      = getCartItemsCount sampleStore + 3 :=
  have hu : UniqueIds sampleStore.state.cart := by decide
  ⟨by decide, hu,
    (handleAddToBag_quantity sampleStore (sampleProduct 7 5) 3 (by decide) hu).2.2.2.2⟩

/-- C30 as stated fails in the arithmetic of the code: after `Add to Bag` with quantity 5
on the seed product at 9.99, one more `addToCart` of it gives the total `9.99 * 6`, the
number 59.94, while the total before plus the stored price, `9.99 * 5 + 9.99`, is the
number 59.940000000000005. -/
theorem total_after_add_is_not_total_plus_price :
    lineOf seedMascara 5 ∈ mascaraStore.state.cart ∧
    (lineOf seedMascara 5).id = seedMascara.id ∧
    UniqueIds mascaraStore.state.cart ∧
    getCartTotalBinary64 (addToCart seedMascara mascaraStore)
      = 1054475631502295 / 17592186044416 ∧
    addNumber (getCartTotalBinary64 mascaraStore) (roundBinary64 (lineOf seedMascara 5).price)
      = 8435805052018361 / 140737488355328 ∧
    getCartTotalBinary64 (addToCart seedMascara mascaraStore)
      ≠ addNumber (getCartTotalBinary64 mascaraStore)
          (roundBinary64 (lineOf seedMascara 5).price) :=
  ⟨List.mem_singleton.mpr rfl, rfl, by decide!, by decide!, by decide!, by decide!⟩

/-- C30 (amended): when the cart holds a line with id `p.id`, `addToCart(p)` keeps the
product fields of every line, depends on `p` through its id only, and holds the stored
line with its quantity raised by 1; so `getCartTotal()` after the call is the total of
the stored lines with that quantity raised, the same whatever price `p` carries. -/
theorem addToCart_keeps_stored_fields (s : Store) (p : Product) (line : CartLine)
    (hline : line ∈ s.state.cart) (hid : line.id = p.id) :
    (addToCart p s).state.cart.map (fun item => item.toProductFields)
      = s.state.cart.map (fun item => item.toProductFields) ∧
    (∀ q : Product, q.id = p.id → addToCart q s = addToCart p s) ∧
    { line with quantity := line.quantity + 1 } ∈ (addToCart p s).state.cart ∧
    (∀ q : Product, q.id = p.id →
      getCartTotalBinary64 (addToCart q s) = getCartTotalBinary64 (addToCart p s)) ∧
    getCartTotalBinary64 (addToCart p s)
      = getCartTotalBinary64 (withCart s (s.state.cart.map (fun item =>
          if item.id = p.id then { item with quantity := item.quantity + 1 } else item))) := by
  have hmem : ∃ item ∈ s.state.cart, item.id = p.id := ⟨line, hline, hid⟩
  have hc := addToCart_cart_of_mem hmem
  have hsame : ∀ q : Product, q.id = p.id → addToCart q s = addToCart p s := by
    intro q hq
    have hmemq : ∃ item ∈ s.state.cart, item.id = q.id := ⟨line, hline, by rw [hid, hq]⟩
    rw [addToCart_eq_withCart s q, addToCart_eq_withCart s p, hc,
      addToCart_cart_of_mem hmemq, hq]
  refine ⟨?_, hsame, ?_, ?_, ?_⟩
  · rw [hc]
    exact map_id_setQuantity _ _ _
  · rw [hc]
    refine List.mem_map.mpr ⟨line, hline, ?_⟩
    simp [hid]
  · intro q hq
    rw [hsame q hq]
  · rw [addToCart_eq_withCart s p, hc]

/-- C30 (amended) at a concrete store: the cart holds product 7 at price 5; adding a
record with id 7 and price 99 gives the store that adding the stored record gives. -/
theorem addToCart_keeps_stored_fields_witness :
    lineOf (sampleProduct 7 5) 2 ∈ sampleStore.state.cart ∧
    (lineOf (sampleProduct 7 5) 2).id = (sampleProduct 7 99).id ∧
    addToCart (sampleProduct 7 5) sampleStore = addToCart (sampleProduct 7 99) sampleStore ∧
    (addToCart (sampleProduct 7 99) sampleStore).state.cart = [lineOf (sampleProduct 7 5) 3] :=
  have hline : lineOf (sampleProduct 7 5) 2 ∈ sampleStore.state.cart := by
    simp [sampleStore]
  ⟨hline, rfl,
    (addToCart_keeps_stored_fields sampleStore (sampleProduct 7 99)
      (lineOf (sampleProduct 7 5) 2) hline rfl).2.1 (sampleProduct 7 5) rfl,
    by decide⟩

end GlowCart
